import Mathlib

/-!
# go-cdn: the upload and delete handlers of `main.go`

A shallow embedding of the two request handlers registered in `main`
(`POST /upload` and `DELETE /*`) together with the library calls they make.

* The handlers are functions from a request, the start-up configuration and an
  explicit filesystem state to an `Outcome`: the HTTP response, the filesystem
  state afterwards and the list of effectful library calls made, in order.
* The library calls the handlers rely on are modelled next to them:
  `filepath.Join` / `filepath.Clean` (Unix flavour, byte loop of the standard
  library), `os.Stat`, `os.Remove`, `imaging.Resize` (output dimensions only) and
  `imaging.Save`.  Values produced by code whose result is not computed here (the UUID
  generator, the JPEG encoder, the image decoder) and the failures of system calls
  that the table of entries does not determine (permissions and the like) are inputs
  of the model.
* The framework in front of the handlers is modelled where a claim depends on it: the
  body limit that `fiber.New()` leaves at its default, and the wildcard parameter,
  which is the request path as sent, not unescaped.
* Strings are lists of characters.  The separator `/` and the dot are ASCII, so
  working on characters instead of bytes does not change `filepath.Clean`.
-/

namespace GoCdn

/-- Go strings, as lists of characters. -/
abbrev Str := List Char

/-! ## `path/filepath` on Unix -/

/-- The function `os.IsPathSeparator` on Unix. -/
def isPathSeparator (c : Char) : Bool := c == '/'

/-- State of the loop of `filepath.Clean`: the bytes written so far (`buf[:w]` of the
lazy buffer, so `out.w = out.length`) and the index `dotdot` where `..` must stop. -/
structure CleanState where
  out : Str
  dotdot : Nat
deriving DecidableEq

/-- The backtracking of a `..` element in `filepath.Clean`:
`out.w--; for out.w > dotdot && !IsPathSeparator(out.index(out.w)) { out.w-- }`.
The argument is the buffer reversed (its head is `buf[w-1]`); the result is the
reversed buffer after the loop. -/
def dotdotBacktrack (dotdot : Nat) : Str → Str
  | [] => []
  | c :: rev =>
    if rev.length > dotdot && !isPathSeparator c then dotdotBacktrack dotdot rev
    else rev

/-- The main loop `for r < n { switch { ... } }` of `filepath.Clean`.  The second
argument is the unread input `path[r:]`; every iteration consumes at least one
character, so a fuel of `len(path)` is enough. -/
def cleanLoop (rooted : Bool) : Nat → Str → CleanState → CleanState
  | 0, _, st => st
  | _ + 1, [], st => st
  | fuel + 1, c :: t, st =>
    if isPathSeparator c then
      -- empty path element
      cleanLoop rooted fuel t st
    else if c == '.' && (t.isEmpty || (t.head?.map isPathSeparator == some true)) then
      -- . element
      cleanLoop rooted fuel t st
    else if c == '.' && t.head? == some '.' &&
        (t.tail.isEmpty || (t.tail.head?.map isPathSeparator == some true)) then
      -- .. element: remove to last separator
      if st.out.length > st.dotdot then
        -- can backtrack
        cleanLoop rooted fuel t.tail
          ⟨(dotdotBacktrack st.dotdot st.out.reverse).reverse, st.dotdot⟩
      else if !rooted then
        -- cannot backtrack, but not rooted, so append .. element
        let out1 := if st.out.length > 0 then st.out ++ ['/'] else st.out
        let out2 := out1 ++ ['.', '.']
        cleanLoop rooted fuel t.tail ⟨out2, out2.length⟩
      else
        cleanLoop rooted fuel t.tail st
    else
      -- real path element: add slash if needed, then copy the element
      let out1 :=
        if (rooted && st.out.length != 1) || (!rooted && st.out.length != 0) then
          st.out ++ ['/']
        else st.out
      cleanLoop rooted fuel ((c :: t).dropWhile (fun x => !isPathSeparator x))
        ⟨out1 ++ (c :: t).takeWhile (fun x => !isPathSeparator x), st.dotdot⟩

/-- The function `filepath.Clean` on Unix (no volume name). -/
def filepathClean (path : Str) : Str :=
  if path.isEmpty then ['.']
  else
    let rooted := path.head?.map isPathSeparator == some true
    let st0 : CleanState := if rooted then ⟨['/'], 1⟩ else ⟨[], 0⟩
    let r0 := if rooted then path.tail else path
    let st := cleanLoop rooted path.length r0 st0
    if st.out.length == 0 then ['.'] else st.out

/-- The call `filepath.Join(a, b)` on Unix: the elements from the first non-empty one
on are joined with `/` and cleaned; the result is empty when both are empty. -/
def filepathJoin (a b : Str) : Str :=
  if a ≠ [] then filepathClean (a ++ '/' :: b)
  else if b ≠ [] then filepathClean b
  else []

/-- A non-empty relative path that does not start with a `..` element (and is not
`.`): what must be left of a path below a directory once the directory is stripped. -/
def relOK (rest : Str) : Bool :=
  rest != [] && rest.head? != some '/' && rest != ['.'] && rest != ['.', '.'] &&
    !(['.', '.', '/'].isPrefixOf rest)

/-- Lexical containment of cleaned paths: `q` lies strictly below the directory `d`.
After the directory and its separator are stripped from `q`, what is left must be a
non-empty relative path that does not start with a `..` element. -/
def isBelow (d q : Str) : Bool :=
  let stem : Str := if d = ['.'] then [] else if d = ['/'] then d else d ++ ['/']
  stem.isPrefixOf q && relOK (q.drop stem.length)

/-- The input starts with a `..` element: two dots followed by the end of the input or
by a separator (the test of the `..` case of `filepath.Clean`). -/
def dotdotAt : Str → Bool
  | [] => false
  | c :: t =>
    c == '.' && t.head? == some '.' &&
      (t.tail.isEmpty || (t.tail.head?.map isPathSeparator == some true))

/-- Some path element of the input is `..` (used to state which names stay below the
upload root); the flag tells whether the input starts at the beginning of an
element. -/
def hasDotDotElem : Bool → Str → Bool
  | _, [] => false
  | atStart, c :: t => (atStart && dotdotAt (c :: t)) || hasDotDotElem (isPathSeparator c) t

/-! ## Filesystem state and the `os` calls -/

/-- A filesystem entry: a regular file of a given byte size, or a directory. -/
inductive Node
  | file (size : Nat)
  | dir
deriving DecidableEq

/-- The value of `info.Size()`; for a directory the value is system dependent and is
not used by the handlers. -/
def Node.size : Node → Nat
  | .file n => n
  | .dir => 0

/-- An explicit filesystem state: the table of entries, keyed by their cleaned path.
Permissions and other properties of the system are not part of the table; the
failures they cause are given by `Faults`. -/
abbrev FS := List (Str × Node)

/-- The entry a path names, if any. -/
def FS.lookup : FS → Str → Option Node
  | [], _ => none
  | (q, n) :: rest, p => if q = p then some n else FS.lookup rest p

/-- The state without the entry named by `p`. -/
def FS.erase (fs : FS) (p : Str) : FS := fs.filter (fun e => decide (e.1 ≠ p))

/-- The state in which `p` names the entry `n`, replacing what it named before. -/
def FS.write (fs : FS) (p : Str) (n : Node) : FS := (p, n) :: FS.erase fs p

/-- Some entry lies below the directory `d`. -/
def FS.hasEntryBelow (fs : FS) (d : Str) : Bool := fs.any (fun e => isBelow d e.1)

/-- Some regular file is a proper ancestor of `p`: `p` continues below a path that
names a regular file. -/
def FS.hasFileAncestor (fs : FS) (p : Str) : Bool :=
  fs.any (fun e =>
    match e.2 with
    | .file _ => isBelow e.1 p
    | .dir => false)

/-- Failures of a system call that the table of entries does not determine: missing
permission, a read-only or busy filesystem, a name that is too long, a loop of links,
an I/O error. -/
inductive Fault
  | EACCES
  | EPERM
  | EROFS
  | EBUSY
  | ENAMETOOLONG
  | ELOOP
  | EIO
deriving DecidableEq

/-- Error numbers the modelled calls can return. -/
inductive Errno
  | ENOENT
  | ENOTDIR
  | ENOTEMPTY
  | EINVAL
  | fault (f : Fault)
deriving DecidableEq

/-- The paths on which the system refuses `stat` or `unlink`/`rmdir` for a reason
outside the table of entries. -/
structure Faults where
  stat : Str → Option Fault
  remove : Str → Option Fault

/-- The call `os.Stat(p)`: a fault of the system if there is one, `ENOTDIR` when a
regular file is among the ancestors of `p`, `ENOENT` when `p` names no entry, and the
entry otherwise. -/
def osStat (fl : Faults) (fs : FS) (p : Str) : Except Errno Node :=
  match fl.stat p with
  | some f => .error (.fault f)
  | none =>
    if FS.hasFileAncestor fs p then .error .ENOTDIR
    else
      match FS.lookup fs p with
      | none => .error .ENOENT
      | some n => .ok n

/-- The test `os.IsNotExist(err)` on the error of a call: true on `ENOENT` only (false
on a nil error and on every other error number). -/
def osIsNotExist {α : Type} : Except Errno α → Bool
  | .error .ENOENT => true
  | _ => false

/-- The directories `rmdir` never removes: `.`, `/` and a path that ends in `..`. -/
def isSpecialDir (p : Str) : Bool :=
  p == ['.'] || p == ['/'] || p == ['.', '.'] || ['/', '.', '.'].isSuffixOf p

/-- The call `os.Remove(p)`: "removes the named file or (empty) directory".  It fails
on a fault of the system, with `ENOTDIR` when a regular file is among the ancestors of
`p`, with `ENOENT` on a missing entry, and on a directory that is special or has an
entry below it; otherwise the entry is removed. -/
def osRemove (fl : Faults) (fs : FS) (p : Str) : Except Errno FS :=
  match fl.remove p with
  | some f => .error (.fault f)
  | none =>
    if FS.hasFileAncestor fs p then .error .ENOTDIR
    else
      match FS.lookup fs p with
      | none => .error .ENOENT
      | some (.file _) => .ok (FS.erase fs p)
      | some .dir =>
        if isSpecialDir p then .error .EINVAL
        else if FS.hasEntryBelow fs p then .error .ENOTEMPTY
        else .ok (FS.erase fs p)

/-! ## Images -/

/-- A decoded image, reduced to the size of its bounds (`Bounds().Dx()`, `Dy()`). -/
structure Image where
  w : Nat
  h : Nat
deriving DecidableEq

/-- The value `floor(a / b + 0.5)` for `b > 0`, in exact arithmetic. -/
def roundHalfUp (a b : Nat) : Nat := (2 * a + b) / (2 * b)

/-- Modelled from the spec: `imaging.Resize` belongs to the third-party package
`github.com/disintegration/imaging`, which is not part of `main.go`; the spec asks for
a resize "to a fixed maximum width preserving aspect ratio (height computed
proportionally)".  The model gives the bounds of the result the way the package
computes them: an empty image when both targets are 0 or the source is empty; a
target of 0 is replaced by the other one scaled by the source's aspect ratio,
`max(1, floor(x + 0.5))`.  The package computes `x` in `float64`; the model uses exact
arithmetic, which gives the same result whenever `1280 * h + w < 2^52`.  The
resampling filter only affects pixel values and is left out. -/
def imagingResize (img : Image) (width height : Nat) : Image :=
  if width = 0 ∧ height = 0 then ⟨0, 0⟩
  else if img.w = 0 ∨ img.h = 0 then ⟨0, 0⟩
  else
    let dstW := if width = 0 then max 1 (roundHalfUp (height * img.w) img.h) else width
    let dstH := if height = 0 then max 1 (roundHalfUp (dstW * img.h) img.w) else height
    ⟨dstW, dstH⟩

/-! ## Requests, configuration, responses -/

/-- The start-up configuration: `apiKey` (environment variable `API_KEY`) and the
flag `upload-dir`. -/
structure Config where
  apiKey : Str
  uploadDir : Str

/-- Results of calls whose computation is left out here: the string of `uuid.New()`,
the JPEG encoder run by `imaging.Save` at quality 80, which either produces a file of
`n` bytes (`.ok n`) or fails after writing `k` bytes (`.error k`), and the faults of
the system calls. -/
structure Env where
  uuid : Str
  jpegEncode : Image → Except Nat Nat
  faults : Faults

/-- The multipart file header returned by `c.FormFile("file")`: its `Size`, whether
`Open()` fails, and what `image.Decode` returns on the opened file (`none` when no
registered format decodes the bytes). -/
structure FormFile where
  size : Nat
  openErr : Bool
  decoded : Option Image

/-- A `POST /upload` request: the `X-API-Key` header, the `file` form field, the
`name` form field and `c.BaseURL()`. -/
structure UploadRequest where
  apiKeyHeader : Option Str
  formFile : Option FormFile
  name : Option Str
  baseURL : Str

/-- A `DELETE /*` request: the `X-API-Key` header and `c.Params("*")`, which is the
request path after the leading `/` exactly as it was sent (`fiber.New()` at main.go:35
leaves `UnescapePath` off). -/
structure DeleteRequest where
  apiKeyHeader : Option Str
  wildcard : Str

/-- The call `c.Get("X-API-Key")`: an absent header reads as the empty string. -/
def UploadRequest.get (c : UploadRequest) : Str := c.apiKeyHeader.getD []

/-- The call `c.FormValue("name")`: an absent field reads as the empty string. -/
def UploadRequest.formValue (c : UploadRequest) : Str := c.name.getD []

/-- The call `c.Get("X-API-Key")`: an absent header reads as the empty string. -/
def DeleteRequest.get (c : DeleteRequest) : Str := c.apiKeyHeader.getD []

/-- What a handler answers: an error built by `fiber.NewError(code, message)`, the
JSON object of `c.JSON`, or the text of `c.SendString`. -/
inductive Response
  | error (code : Nat) (message : String)
  | json (url : Str) (sizeAfter : Nat)
  | sendString (body : String)
deriving DecidableEq

/-- The HTTP status of a response: the code of an error, 200 otherwise. -/
def Response.status : Response → Nat
  | .error code _ => code
  | .json _ _ => 200
  | .sendString _ => 200

/-- The effectful library calls a handler makes, in the order it makes them. -/
inductive Call
  | fileOpen
  | imageDecode
  | save (path : Str) (img : Image)
  | stat (path : Str)
  | remove (path : Str)
deriving DecidableEq

/-- Result of running a handler: the response, the filesystem afterwards and the
library calls made. -/
structure Outcome where
  resp : Response
  fs : FS
  calls : List Call

def StatusBadRequest : Nat := 400
def StatusUnauthorized : Nat := 401
def StatusNotFound : Nat := 404
def StatusUnsupportedMediaType : Nat := 415
def StatusInternalServerError : Nat := 500

/-- The constant `maxFileSize` of `main`. -/
def maxFileSize : Nat := 20 * 1024 * 1024

/-- The literal `".jpeg"`. -/
def jpegExt : Str := ['.', 'j', 'p', 'e', 'g']

/-- The call `imaging.Save(img, p, imaging.JPEGQuality(80))` for a path with a JPEG
extension: `os.Create(p)` (which fails on a directory and otherwise truncates or
creates the file), then the encoder writes into the file.  Returns the filesystem
afterwards and whether the call succeeded. -/
def imagingSave (env : Env) (fs : FS) (img : Image) (p : Str) : FS × Bool :=
  match FS.lookup fs p with
  | some .dir => (fs, false)
  | _ =>
    match env.jpegEncode img with
    | .error k => (FS.write fs p (.file k), false)
    | .ok n => (FS.write fs p (.file n), true)

/-! ## The handlers -/

/-- The handler of `app.Post("/upload", ...)`. -/
def uploadHandler (cfg : Config) (env : Env) (c : UploadRequest) (fs : FS) : Outcome :=
  if c.get ≠ cfg.apiKey then
    ⟨.error StatusUnauthorized "Unauthorized to upload file", fs, []⟩
  else
    match c.formFile with
    | none => ⟨.error StatusBadRequest "No image found", fs, []⟩
    | some formFile =>
      if formFile.size > maxFileSize then
        ⟨.error StatusBadRequest "File size limit exceeded: 20MB", fs, []⟩
      else if formFile.openErr then
        ⟨.error StatusInternalServerError "Cannot open image file", fs, [.fileOpen]⟩
      else
        match formFile.decoded with
        | none =>
          ⟨.error StatusUnsupportedMediaType "Invalid file format", fs,
            [.fileOpen, .imageDecode]⟩
        | some img =>
          -- process image
          let fileName := if c.formValue = [] then env.uuid else c.formValue
          let finalFileName := fileName ++ jpegExt
          let filePath := filepathJoin cfg.uploadDir finalFileName
          let resizedImage := imagingResize img 1280 0
          let calls := [Call.fileOpen, .imageDecode, .save filePath resizedImage]
          match imagingSave env fs resizedImage filePath with
          | (fs1, false) =>
            ⟨.error StatusInternalServerError "Failed to save image", fs1, calls⟩
          | (fs1, true) =>
            match osStat env.faults fs1 filePath with
            | .error _ =>
              ⟨.error StatusInternalServerError "Failed to get file info", fs1,
                calls ++ [.stat filePath]⟩
            | .ok info =>
              ⟨.json (c.baseURL ++ '/' :: finalFileName) info.size, fs1,
                calls ++ [.stat filePath]⟩

/-- The handler of `app.Delete("/*", ...)`. -/
def deleteHandler (cfg : Config) (env : Env) (c : DeleteRequest) (fs : FS) : Outcome :=
  if c.get ≠ cfg.apiKey then
    ⟨.error StatusUnauthorized "Unauthorized to delete file", fs, []⟩
  else
    let fileName := c.wildcard
    if fileName = [] then
      ⟨.error StatusBadRequest "No file name found", fs, []⟩
    else
      let filePath := filepathJoin cfg.uploadDir fileName
      if osIsNotExist (osStat env.faults fs filePath) then
        ⟨.error StatusNotFound "No file found", fs, [.stat filePath]⟩
      else
        match osRemove env.faults fs filePath with
        | .error _ =>
          ⟨.error StatusInternalServerError "Cannot delete file", fs,
            [.stat filePath, .remove filePath]⟩
        | .ok fs1 =>
          ⟨.sendString "File deleted successfully", fs1, [.stat filePath, .remove filePath]⟩

/-! ## The framework in front of the handlers -/

def StatusRequestEntityTooLarge : Nat := 413

/-- The constant `fiber.DefaultBodyLimit`, the body limit of an application created by
`fiber.New()` without configuration (main.go:35). -/
def DefaultBodyLimit : Nat := 4 * 1024 * 1024

/-- The route `POST /upload` as served: a request whose body is longer than the body
limit is answered 413 by the framework and the handler is not run.  `bodyLen` is the
length of the request body, which contains the bytes of the file field. -/
def serveUpload (cfg : Config) (env : Env) (bodyLen : Nat) (c : UploadRequest) (fs : FS) :
    Outcome :=
  if bodyLen > DefaultBodyLimit then
    ⟨.error StatusRequestEntityTooLarge "Request Entity Too Large", fs, []⟩
  else uploadHandler cfg env c fs

/-- Characters that stand for themselves in every URL: the unreserved characters
(letters, digits, `-`, `.`, `_`, `~`). -/
def isUnreserved (c : Char) : Bool :=
  c.isAlphanum || c == '-' || c == '.' || c == '_' || c == '~'

/-- Characters a request path carries unescaped: the unreserved ones and `/`. -/
def isPathChar (c : Char) : Bool := isUnreserved c || c == '/'

/-- The UTF-8 bytes of a code point. -/
def utf8Bytes (n : Nat) : List Nat :=
  if n < 128 then [n]
  else if n < 2048 then [192 + n / 64, 128 + n % 64]
  else if n < 65536 then [224 + n / 4096, 128 + n / 64 % 64, 128 + n % 64]
  else [240 + n / 262144, 128 + n / 4096 % 64, 128 + n / 64 % 64, 128 + n % 64]

/-- The hexadecimal digit of a number below 16. -/
def hexDigit (n : Nat) : Char :=
  ['0', '1', '2', '3', '4', '5', '6', '7', '8', '9', 'A', 'B', 'C', 'D', 'E', 'F'].getD n '0'

/-- Percent-encoding of a path for the request line: a character that is not a path
character is sent as `%XX` for each of its UTF-8 bytes. -/
def pathEscape (s : Str) : Str :=
  s.flatMap (fun c =>
    if isPathChar c then [c]
    else (utf8Bytes c.toNat).flatMap (fun b => ['%', hexDigit (b / 16), hexDigit (b % 16)]))

/-- The request `DELETE /<file>` with the given key as the handler receives it: the
wildcard parameter is the escaped path, which the framework does not unescape. -/
def deleteRequestFor (key : Str) (file : Str) : DeleteRequest :=
  ⟨some key, pathEscape file⟩

/-- A plain path element: non-empty, without separator, and neither `.` nor `..`. -/
def PlainElem (seg : Str) : Prop :=
  seg ≠ [] ∧ '/' ∉ seg ∧ seg ≠ ['.'] ∧ seg ≠ ['.', '.']

/-! ## Sample values -/

/-- A configuration with the default upload directory of the `upload-dir` flag. -/
def sampleConfig : Config := ⟨"key".toList, "./uploads".toList⟩

/-- An environment whose encoder always produces 7 bytes and whose system calls have no
fault. -/
def sampleEnv : Env :=
  ⟨"0b0e6c1e-8a53-4c57-9c41-0f6f4c1d2a77".toList, fun _ => .ok 7, ⟨fun _ => none, fun _ => none⟩⟩

/-- An environment in which the system refuses every removal (a read-only directory). -/
def readOnlyEnv : Env :=
  ⟨"0b0e6c1e-8a53-4c57-9c41-0f6f4c1d2a77".toList, fun _ => .ok 7,
    ⟨fun _ => none, fun _ => some .EACCES⟩⟩

/-- A file field of 10 bytes that decodes as a 2000 x 1000 image. -/
def sampleImageFile : FormFile := ⟨10, false, some ⟨2000, 1000⟩⟩

/-- An upload request with the correct key and the given name field. -/
def sampleUpload (name : Option Str) : UploadRequest :=
  ⟨some "key".toList, some sampleImageFile, name, "http://h".toList⟩

/-- A filesystem holding only the (empty) upload directory. -/
def sampleFS : FS := [("uploads".toList, Node.dir)]

/-! ## Lemmas on `filepath.Clean` -/

theorem dropWhile_append_sep (l b : Str) :
    (l ++ '/' :: b).dropWhile (fun x => !isPathSeparator x) =
      l.dropWhile (fun x => !isPathSeparator x) ++ '/' :: b := by
  induction l with
  | nil => simp [isPathSeparator]
  | cons x l ih =>
    by_cases hx : isPathSeparator x = true
    · simp [List.dropWhile_cons, hx]
    · simpa [List.dropWhile_cons, hx] using ih

theorem takeWhile_append_sep (l b : Str) :
    (l ++ '/' :: b).takeWhile (fun x => !isPathSeparator x) =
      l.takeWhile (fun x => !isPathSeparator x) := by
  induction l with
  | nil => simp [isPathSeparator]
  | cons x l ih =>
    by_cases hx : isPathSeparator x = true
    · simp [List.takeWhile_cons, hx]
    · simpa [List.takeWhile_cons, hx] using ih

theorem length_dropWhile_elem (c : Char) (t : Str) (hc : ¬ isPathSeparator c = true) :
    ((c :: t).dropWhile (fun x => !isPathSeparator x)).length ≤ t.length := by
  have : (c :: t).dropWhile (fun x => !isPathSeparator x) =
      t.dropWhile (fun x => !isPathSeparator x) := by
    simp [List.dropWhile_cons, hc]
  rw [this]
  exact (List.dropWhile_sublist _).length_le

/-- Fuel beyond the length of the unread input does not change the loop's result. -/
theorem cleanLoop_fuel (rooted : Bool) (f1 : Nat) :
    ∀ (f2 : Nat) (rest : Str) (st : CleanState), rest.length ≤ f1 → rest.length ≤ f2 →
      cleanLoop rooted f1 rest st = cleanLoop rooted f2 rest st := by
  induction f1 with
  | zero =>
    intro f2 rest st h1 _
    have hr : rest = [] := List.length_eq_zero.mp (Nat.le_zero.mp h1)
    subst hr
    cases f2 <;> rfl
  | succ n ih =>
    intro f2 rest st h1 h2
    cases rest with
    | nil => cases f2 <;> rfl
    | cons c t =>
      cases f2 with
      | zero => simp at h2
      | succ m =>
        have ht1 : t.length ≤ n := by simpa using h1
        have ht2 : t.length ≤ m := by simpa using h2
        have htt1 : t.tail.length ≤ n := by rw [List.length_tail]; omega
        have htt2 : t.tail.length ≤ m := by rw [List.length_tail]; omega
        simp only [cleanLoop]
        split_ifs with hsep
        all_goals first
          | exact ih _ _ _ ht1 ht2
          | exact ih _ _ _ htt1 htt2
          | exact ih _ _ _ (le_trans (length_dropWhile_elem c t hsep) ht1)
              (le_trans (length_dropWhile_elem c t hsep) ht2)

theorem dotCond_append_sep (t b : Str) :
    ((t ++ '/' :: b).isEmpty || ((t ++ '/' :: b).head?.map isPathSeparator == some true)) =
      (t.isEmpty || (t.head?.map isPathSeparator == some true)) := by
  cases t <;> simp [isPathSeparator]

theorem dotdotCond_append_sep (c : Char) (t b : Str) :
    (c == '.' && (t ++ '/' :: b).head? == some '.' &&
        ((t ++ '/' :: b).tail.isEmpty ||
          ((t ++ '/' :: b).tail.head?.map isPathSeparator == some true))) =
      (c == '.' && t.head? == some '.' &&
        (t.tail.isEmpty || (t.tail.head?.map isPathSeparator == some true))) := by
  cases t with
  | nil => simp
  | cons d t' =>
    simp only [List.cons_append, List.head?_cons, List.tail_cons]
    rw [dotCond_append_sep]

theorem tail_append_of_dotdotCond (t b : Str)
    (h : (t.head? == some '.' &&
        (t.tail.isEmpty || (t.tail.head?.map isPathSeparator == some true))) = true) :
    (t ++ '/' :: b).tail = t.tail ++ '/' :: b := by
  cases t with
  | nil => simp at h
  | cons d t' => rfl

/-- Reading `a` followed by a separator and `b` first reads all of `a`: the loop on
`a ++ "/" ++ b` is the loop on `"/" ++ b` started from the state the loop on `a`
ends in. -/
theorem cleanLoop_append_sep (rooted : Bool) (n : Nat) :
    ∀ (a b : Str) (st : CleanState) (f1 f2 f3 : Nat), a.length ≤ n →
      (a ++ '/' :: b).length ≤ f1 → a.length ≤ f2 → ('/' :: b).length ≤ f3 →
      cleanLoop rooted f1 (a ++ '/' :: b) st =
        cleanLoop rooted f3 ('/' :: b) (cleanLoop rooted f2 a st) := by
  induction n with
  | zero =>
    intro a b st f1 f2 f3 ha h1 _ h3
    have hr : a = [] := List.length_eq_zero.mp (Nat.le_zero.mp ha)
    subst hr
    have : cleanLoop rooted f2 [] st = st := by cases f2 <;> rfl
    rw [this]
    exact cleanLoop_fuel rooted f1 f3 _ st h1 h3
  | succ n ih =>
    intro a b st f1 f2 f3 ha h1 h2 h3
    cases a with
    | nil =>
      have : cleanLoop rooted f2 [] st = st := by cases f2 <;> rfl
      rw [this]
      exact cleanLoop_fuel rooted f1 f3 _ st h1 h3
    | cons c t =>
      cases f1 with
      | zero => simp at h1
      | succ k1 =>
        cases f2 with
        | zero => simp at h2
        | succ k2 =>
          have ht : t.length ≤ n := by simpa using ha
          have ht1 : (t ++ '/' :: b).length ≤ k1 := by simpa using h1
          have ht2 : t.length ≤ k2 := by simpa using h2
          rw [List.cons_append]
          simp only [cleanLoop]
          rw [dotCond_append_sep, dotdotCond_append_sep]
          by_cases hsep : isPathSeparator c = true
          · simp only [hsep, if_true]
            exact ih t b st k1 k2 f3 ht ht1 ht2 h3
          · simp only [hsep, Bool.false_eq_true, if_false]
            by_cases hdot : (c == '.' &&
                (t.isEmpty || (t.head?.map isPathSeparator == some true))) = true
            · simp only [hdot, if_true]
              exact ih t b st k1 k2 f3 ht ht1 ht2 h3
            · simp only [hdot, Bool.false_eq_true, if_false]
              by_cases hdd : (c == '.' && t.head? == some '.' &&
                  (t.tail.isEmpty || (t.tail.head?.map isPathSeparator == some true))) = true
              · have hdd' : (t.head? == some '.' &&
                    (t.tail.isEmpty || (t.tail.head?.map isPathSeparator == some true))) =
                    true := by
                  simp only [Bool.and_eq_true] at hdd ⊢
                  exact ⟨hdd.1.2, hdd.2⟩
                have htl := tail_append_of_dotdotCond t b hdd'
                have hl : t.tail.length ≤ n := by rw [List.length_tail]; omega
                have hl1 : (t.tail ++ '/' :: b).length ≤ k1 := by
                  have := List.length_tail t
                  simp only [List.length_append, List.length_cons] at ht1 ⊢
                  omega
                have hl2 : t.tail.length ≤ k2 := by rw [List.length_tail]; omega
                simp only [hdd, if_true, htl]
                split_ifs <;> exact ih _ b _ k1 k2 f3 hl hl1 hl2 h3
              · simp only [hdd, Bool.false_eq_true, if_false]
                have hc : (fun x => !isPathSeparator x) c = true := by simpa using hsep
                have e1 : (c :: (t ++ '/' :: b)).dropWhile (fun x => !isPathSeparator x) =
                    (c :: t).dropWhile (fun x => !isPathSeparator x) ++ '/' :: b := by
                  rw [← List.cons_append, dropWhile_append_sep]
                have e2 : (c :: (t ++ '/' :: b)).takeWhile (fun x => !isPathSeparator x) =
                    (c :: t).takeWhile (fun x => !isPathSeparator x) := by
                  rw [← List.cons_append, takeWhile_append_sep]
                rw [e1, e2]
                have hd := length_dropWhile_elem c t hsep
                refine ih _ b _ k1 k2 f3 (le_trans hd ht) ?_ (le_trans hd ht2) h3
                simp only [List.length_append, List.length_cons] at ht1 ⊢
                omega

theorem dotdotBacktrack_final (dd : Nat) (rev : Str) : dotdotBacktrack dd rev <:+ rev := by
  induction rev with
  | nil => exact List.suffix_refl _
  | cons c rev ih =>
    unfold dotdotBacktrack
    split_ifs
    · exact ih.trans (List.suffix_cons c rev)
    · exact List.suffix_cons c rev

theorem dotdotBacktrack_length (dd : Nat) (rev : Str) (h : dd < rev.length) :
    dd ≤ (dotdotBacktrack dd rev).length := by
  induction rev with
  | nil => simp at h
  | cons c rev ih =>
    unfold dotdotBacktrack
    split_ifs with hc
    · simp only [Bool.and_eq_true, decide_eq_true_eq] at hc
      exact ih hc.1
    · simp only [List.length_cons] at h
      omega

theorem dotdotBacktrack_initial (dd : Nat) (out : Str) :
    (dotdotBacktrack dd out.reverse).reverse <+: out := by
  have h := dotdotBacktrack_final dd out.reverse
  rw [← List.reverse_prefix , List.reverse_reverse] at h
  exact h

theorem head?_of_initial (l₁ l₂ : Str) (h : l₁ <+: l₂) (hne : l₁ ≠ []) :
    l₁.head? = l₂.head? := by
  obtain ⟨s, rfl⟩ := h
  exact (List.head?_append_of_ne_nil _ hne).symm

/-- Induction principle for the loop: a property of the state that survives each of
the three ways an iteration changes the state holds when the loop ends. -/
theorem cleanLoop_preserves (rooted : Bool) (P : CleanState → Prop)
    (hbt : ∀ st : CleanState, P st → st.out.length > st.dotdot →
      P ⟨(dotdotBacktrack st.dotdot st.out.reverse).reverse, st.dotdot⟩)
    (hdd : ∀ st : CleanState, P st → rooted = false →
      P ⟨(if st.out.length > 0 then st.out ++ ['/'] else st.out) ++ ['.', '.'],
        ((if st.out.length > 0 then st.out ++ ['/'] else st.out) ++ ['.', '.']).length⟩)
    (hel : ∀ (st : CleanState) (c : Char) (t : Str), P st → isPathSeparator c = false →
      P ⟨(if (rooted && st.out.length != 1) || (!rooted && st.out.length != 0) then
          st.out ++ ['/'] else st.out) ++ c :: t.takeWhile (fun x => !isPathSeparator x),
        st.dotdot⟩)
    (fuel : Nat) :
    ∀ (rest : Str) (st : CleanState), P st → P (cleanLoop rooted fuel rest st) := by
  induction fuel with
  | zero => intro rest st h; exact h
  | succ n ih =>
    intro rest st h
    cases rest with
    | nil => exact h
    | cons c t =>
      simp only [cleanLoop]
      by_cases h1 : isPathSeparator c = true
      · rw [if_pos h1]
        exact ih _ _ h
      · rw [if_neg h1]
        by_cases h2 : (c == '.' &&
            (t.isEmpty || (t.head?.map isPathSeparator == some true))) = true
        · rw [if_pos h2]
          exact ih _ _ h
        · rw [if_neg h2]
          by_cases h3 : (c == '.' && t.head? == some '.' &&
              (t.tail.isEmpty || (t.tail.head?.map isPathSeparator == some true))) = true
          · rw [if_pos h3]
            by_cases h4 : st.out.length > st.dotdot
            · rw [if_pos h4]
              exact ih _ _ (hbt st h h4)
            · rw [if_neg h4]
              by_cases h5 : (!rooted) = true
              · rw [if_pos h5]
                exact ih _ _ (hdd st h (by simpa using h5))
              · rw [if_neg h5]
                exact ih _ _ h
          · rw [if_neg h3]
            have hc : isPathSeparator c = false := by simpa using h1
            have htw : (c :: t).takeWhile (fun x => !isPathSeparator x) =
                c :: t.takeWhile (fun x => !isPathSeparator x) := by
              simp [List.takeWhile_cons, hc]
            rw [htw]
            exact ih _ _ (hel st c t h hc)

/-- On a rooted path the buffer always starts with the separator. -/
theorem cleanLoop_rooted_inv (fuel : Nat) (rest : Str) (st : CleanState)
    (h : st.out.head? = some '/' ∧ st.dotdot = 1) :
    (cleanLoop true fuel rest st).out.head? = some '/' ∧
      (cleanLoop true fuel rest st).dotdot = 1 := by
  refine cleanLoop_preserves true (fun s => s.out.head? = some '/' ∧ s.dotdot = 1)
    ?_ ?_ ?_ fuel rest st h
  · intro s hs h4
    refine ⟨?_, hs.2⟩
    have hp := dotdotBacktrack_initial s.dotdot s.out
    have hl := dotdotBacktrack_length s.dotdot s.out.reverse (by simpa using h4)
    have hne' : (dotdotBacktrack s.dotdot s.out.reverse).reverse ≠ [] := by
      intro h0
      rw [← List.length_reverse, h0, hs.2] at hl
      simp at hl
    show ((dotdotBacktrack s.dotdot s.out.reverse).reverse).head? = some '/'
    rw [head?_of_initial _ _ hp hne']
    exact hs.1
  · intro s _ hr
    cases hr
  · intro s c t hs _
    have hne : s.out ≠ [] := by
      intro h0
      have := hs.1
      rw [h0] at this
      simp at this
    refine ⟨?_, hs.2⟩
    show (((if (true && s.out.length != 1) || (!true && s.out.length != 0) then
      s.out ++ ['/'] else s.out) ++ c :: t.takeWhile (fun x => !isPathSeparator x))).head? =
      some '/'
    by_cases hl : ((true && s.out.length != 1) || (!true && s.out.length != 0)) = true
    · rw [if_pos hl, List.append_assoc, List.head?_append_of_ne_nil _ hne]
      exact hs.1
    · rw [if_neg hl, List.head?_append_of_ne_nil _ hne]
      exact hs.1

/-- On a path that is not rooted the buffer never starts with the separator. -/
theorem cleanLoop_unrooted_inv (fuel : Nat) (rest : Str) (st : CleanState)
    (h : st.out.head? ≠ some '/') :
    (cleanLoop false fuel rest st).out.head? ≠ some '/' := by
  refine cleanLoop_preserves false (fun s => s.out.head? ≠ some '/') ?_ ?_ ?_ fuel rest st h
  · intro s hs _
    have hp := dotdotBacktrack_initial s.dotdot s.out
    show ((dotdotBacktrack s.dotdot s.out.reverse).reverse).head? ≠ some '/'
    by_cases hne' : (dotdotBacktrack s.dotdot s.out.reverse).reverse = []
    · rw [hne']
      simp
    · rw [head?_of_initial _ _ hp hne']
      exact hs
  · intro s hs _
    show (((if s.out.length > 0 then s.out ++ ['/'] else s.out) ++ ['.', '.'])).head? ≠ some '/'
    by_cases h0 : s.out = []
    · simp [h0]
    · have hpos : s.out.length > 0 := List.length_pos.mpr h0
      rw [if_pos hpos, List.append_assoc, List.head?_append_of_ne_nil _ h0]
      exact hs
  · intro s c t hs hc
    show (((if (false && s.out.length != 1) || (!false && s.out.length != 0) then
      s.out ++ ['/'] else s.out) ++ c :: t.takeWhile (fun x => !isPathSeparator x))).head? ≠
      some '/'
    by_cases h0 : s.out = []
    · simp only [h0]
      intro hh
      have : c = '/' := by simpa using hh
      rw [this] at hc
      simp [isPathSeparator] at hc
    · have hpos : ((false && s.out.length != 1) || (!false && s.out.length != 0)) = true := by
        simpa using h0
      rw [if_pos hpos, List.append_assoc, List.head?_append_of_ne_nil _ h0]
      exact hs

theorem takeWhile_plain (seg : Str) (h : '/' ∉ seg) :
    seg.takeWhile (fun x => !isPathSeparator x) = seg := by
  rw [List.takeWhile_eq_self_iff]
  intro x hx
  have : x ≠ '/' := fun hh => h (hh ▸ hx)
  simpa [isPathSeparator] using this

theorem dropWhile_plain (seg : Str) (h : '/' ∉ seg) :
    seg.dropWhile (fun x => !isPathSeparator x) = [] := by
  rw [List.dropWhile_eq_nil_iff]
  intro x hx
  have : x ≠ '/' := fun hh => h (hh ▸ hx)
  simpa [isPathSeparator] using this

/-- One plain element is read by the default case of the loop: a separator is added
when the buffer needs one and the element is copied. -/
theorem cleanLoop_plainElem (rooted : Bool) (seg : Str) (hs : PlainElem seg)
    (st : CleanState) (f : Nat) (hf : 1 ≤ f) :
    cleanLoop rooted f seg st =
      ⟨(if (rooted && st.out.length != 1) || (!rooted && st.out.length != 0) then
          st.out ++ ['/'] else st.out) ++ seg, st.dotdot⟩ := by
  obtain ⟨hne, hslash, hdot, hdotdot⟩ := hs
  obtain ⟨k, rfl⟩ : ∃ k, f = k + 1 := ⟨f - 1, by omega⟩
  cases seg with
  | nil => exact absurd rfl hne
  | cons c t =>
    have hc : isPathSeparator c = false := by
      have : c ≠ '/' := fun hh => hslash (by simp [hh])
      simpa [isPathSeparator] using this
    have ht : '/' ∉ t := fun hh => hslash (List.mem_cons_of_mem _ hh)
    have h2 : ¬ (c == '.' && (t.isEmpty || (t.head?.map isPathSeparator == some true))) = true := by
      intro hh
      simp only [Bool.and_eq_true, Bool.or_eq_true, beq_iff_eq] at hh
      obtain ⟨rfl, hh⟩ := hh
      rcases hh with hh | hh
      · exact hdot (by simpa using hh)
      · cases t with
        | nil => simp at hh
        | cons d t' =>
          simp [isPathSeparator] at hh
          exact ht (by simp [hh])
    have h3 : ¬ (c == '.' && t.head? == some '.' &&
        (t.tail.isEmpty || (t.tail.head?.map isPathSeparator == some true))) = true := by
      intro hh
      simp only [Bool.and_eq_true, Bool.or_eq_true, beq_iff_eq] at hh
      obtain ⟨⟨rfl, hd⟩, hh⟩ := hh
      cases t with
      | nil => simp at hd
      | cons d t' =>
        simp only [List.head?_cons, Option.some.injEq] at hd
        subst hd
        simp only [List.tail_cons] at hh
        rcases hh with hh | hh
        · exact hdotdot (by simpa using hh)
        · cases t' with
          | nil => simp at hh
          | cons e t2 =>
            simp [isPathSeparator] at hh
            exact ht (by simp [hh])
    simp only [cleanLoop]
    rw [if_neg (by simp [hc]), if_neg h2, if_neg h3, takeWhile_plain _ hslash,
      dropWhile_plain _ hslash]
    cases k <;> rfl

/-- A plain element passes `relOK`. -/
theorem plainElem_rest (seg : Str) (hs : PlainElem seg) : relOK seg = true := by
  obtain ⟨hne, hslash, hdot, hdotdot⟩ := hs
  have hh : seg.head? ≠ some '/' := by
    intro h
    cases seg with
    | nil => simp at h
    | cons c t =>
      simp only [List.head?_cons, Option.some.injEq] at h
      exact hslash (by simp [h])
  have hp : (['.', '.', '/'].isPrefixOf seg) = false := by
    rw [Bool.eq_false_iff, Ne, List.isPrefixOf_iff_prefix ]
    rintro ⟨s, rfl⟩
    exact hslash (by simp)
  simp [relOK, hne, hh, hdot, hdotdot, hp]

/-- A relative path that passes `relOK` still does after a separator and a further
element are appended. -/
theorem relOK_append (rel elem : Str) (h : relOK rel = true) :
    relOK (rel ++ '/' :: elem) = true := by
  rcases rel with _ | ⟨x, _ | ⟨y, _ | ⟨z, r⟩⟩⟩
  · simp [relOK] at h
  · have hx1 : x ≠ '/' := by
      intro hx
      simp [relOK, hx] at h
    have hx2 : x ≠ '.' := by
      intro hx
      simp [relOK, hx] at h
    simp [relOK, List.isPrefixOf, hx1, hx2]
  · have hx1 : x ≠ '/' := by
      intro hx
      simp [relOK, hx] at h
    have hxy : ¬ (x = '.' ∧ y = '.') := by
      rintro ⟨hx, hy⟩
      simp [relOK, hx, hy] at h
    simp only [relOK, List.isPrefixOf, List.cons_append, List.nil_append, List.head?_cons]
    simp [hx1]
    by_contra hcon
    push_neg at hcon
    exact hxy ⟨hcon.1.symm, hcon.2.symm⟩
  · have hx1 : x ≠ '/' := by
      intro hx
      simp [relOK, hx] at h
    have hp : ¬ (x = '.' ∧ y = '.' ∧ z = '/') := by
      rintro ⟨hx, hy, hz⟩
      simp [relOK, List.isPrefixOf, hx, hy, hz] at h
    simp only [relOK, List.isPrefixOf, List.cons_append, List.head?_cons]
    simp [hx1]
    by_contra hcon
    push_neg at hcon
    exact hp ⟨hcon.1.symm, hcon.2.1.symm, hcon.2.2.symm⟩

theorem isBelow_slash (rel : Str) (h : relOK rel = true) : isBelow ['/'] ('/' :: rel) = true := by
  simp only [isBelow]
  simpa using h

theorem isBelow_dot (rel : Str) (h : relOK rel = true) : isBelow ['.'] rel = true := by
  simp only [isBelow]
  simpa using h

theorem isBelow_child (d rel : Str) (h : relOK rel = true) (h1 : d ≠ ['.']) (h2 : d ≠ ['/']) :
    isBelow d (d ++ '/' :: rel) = true := by
  have hd : (d ++ '/' :: rel).drop (d ++ ['/']).length = rel := by
    rw [show d ++ '/' :: rel = (d ++ ['/']) ++ rel by simp]
    exact List.drop_left _ _
  have hp : (d ++ ['/']).isPrefixOf (d ++ '/' :: rel) = true := by
    rw [ List.isPrefixOf_iff_prefix ]
    exact ⟨rel, by simp⟩
  simp only [isBelow, if_neg h1, if_neg h2, hd, hp, Bool.true_and]
  exact h

/-! ### Inputs without a `..` element -/

theorem hasDotDotElem_sep (b : Bool) (c : Char) (t : Str) (hc : isPathSeparator c = true) :
    hasDotDotElem b (c :: t) = hasDotDotElem true t := by
  have hc' : c = '/' := by simpa [isPathSeparator] using hc
  subst hc'
  simp [hasDotDotElem, dotdotAt, isPathSeparator]

/-- On an input that is empty or starts with a separator the flag does not matter. -/
theorem hasDotDotElem_flag (b : Bool) (t : Str)
    (ht : (t.isEmpty || (t.head?.map isPathSeparator == some true)) = true) :
    hasDotDotElem b t = hasDotDotElem true t := by
  cases t with
  | nil => rfl
  | cons d t' =>
    have hd : isPathSeparator d = true := by simpa using ht
    rw [hasDotDotElem_sep b d t' hd, hasDotDotElem_sep true d t' hd]

theorem hasDotDotElem_dropWhile (b : Bool) (s : Str) (h : hasDotDotElem b s = false) :
    hasDotDotElem true (s.dropWhile (fun x => !isPathSeparator x)) = false := by
  induction s generalizing b with
  | nil => rfl
  | cons c t ih =>
    by_cases hc : isPathSeparator c = true
    · have : (c :: t).dropWhile (fun x => !isPathSeparator x) = c :: t := by
        simp [List.dropWhile_cons, hc]
      rw [this, hasDotDotElem_sep true c t hc]
      rw [hasDotDotElem_sep b c t hc] at h
      exact h
    · have : (c :: t).dropWhile (fun x => !isPathSeparator x) =
          t.dropWhile (fun x => !isPathSeparator x) := by
        simp [List.dropWhile_cons, hc]
      rw [this]
      simp only [hasDotDotElem, Bool.or_eq_false_iff] at h
      exact ih _ h.2

/-- The elements of `s` are elements of `s` followed by a separator and more input. -/
theorem hasDotDotElem_append_sep (b : Bool) (s l : Str)
    (h : hasDotDotElem b (s ++ '/' :: l) = false) : hasDotDotElem b s = false := by
  induction s generalizing b with
  | nil => rfl
  | cons c t ih =>
    rw [List.cons_append] at h
    simp only [hasDotDotElem, dotdotAt, Bool.or_eq_false_iff] at h ⊢
    rw [dotdotCond_append_sep] at h
    exact ⟨h.1, ih _ h.2⟩

theorem takeWhile_eq_nil_cases (t : Str) (h : t.takeWhile (fun x => !isPathSeparator x) = []) :
    (t.isEmpty || (t.head?.map isPathSeparator == some true)) = true := by
  cases t with
  | nil => rfl
  | cons d t' =>
    by_cases hd : isPathSeparator d = true
    · simp [hd]
    · simp [List.takeWhile_cons, hd] at h

/-- What the default case of the loop copies is a plain element. -/
theorem plainElem_takeWhile (c : Char) (t : Str) (hc : isPathSeparator c = false)
    (h2 : ¬ (c == '.' && (t.isEmpty || (t.head?.map isPathSeparator == some true))) = true)
    (h3 : ¬ (c == '.' && t.head? == some '.' &&
      (t.tail.isEmpty || (t.tail.head?.map isPathSeparator == some true))) = true) :
    PlainElem (c :: t.takeWhile (fun x => !isPathSeparator x)) := by
  refine ⟨by simp, ?_, ?_, ?_⟩
  · intro hm
    rcases List.mem_cons.mp hm with hm | hm
    · rw [← hm] at hc
      simp [isPathSeparator] at hc
    · have := List.mem_takeWhile_imp hm
      simp [isPathSeparator] at this
  · intro he
    simp only [List.cons.injEq] at he
    obtain ⟨rfl, he⟩ := he
    exact h2 (by simpa using takeWhile_eq_nil_cases t he)
  · intro he
    simp only [List.cons.injEq] at he
    obtain ⟨rfl, he⟩ := he
    cases t with
    | nil => simp at he
    | cons d t' =>
      by_cases hd : isPathSeparator d = true
      · simp [List.takeWhile_cons, hd] at he
      · simp only [List.takeWhile_cons, hd, Bool.not_false, if_true, List.cons.injEq] at he
        · obtain ⟨rfl, he⟩ := he
          exact h3 (by simpa using takeWhile_eq_nil_cases t' he)

/-- Once a relative path has been written after `base`, the next element needs a
separator. -/
theorem sepCond_grown (rooted : Bool) (base rel : Str) (hbase : rooted = true → base ≠ [])
    (hrne : rel ≠ []) :
    ((rooted && ((if (rooted && base.length != 1) || (!rooted && base.length != 0) then
          base ++ ['/'] else base) ++ rel).length != 1) ||
      (!rooted && ((if (rooted && base.length != 1) || (!rooted && base.length != 0) then
          base ++ ['/'] else base) ++ rel).length != 0)) = true := by
  have hr1 : 1 ≤ rel.length := List.length_pos.mpr hrne
  cases rooted with
  | true =>
    have hb1 : 1 ≤ base.length := List.length_pos.mpr (hbase rfl)
    have hl : 2 ≤ ((if (true && base.length != 1) || (!true && base.length != 0) then
        base ++ ['/'] else base) ++ rel).length := by
      split_ifs <;> simp only [List.length_append, List.length_cons, List.length_nil] <;> omega
    simp only [Bool.true_and, Bool.not_true, Bool.false_and, Bool.or_false, bne_iff_ne, ne_eq,
      decide_eq_true_eq] at hl ⊢
    omega
  | false =>
    have hl : 1 ≤ ((if (false && base.length != 1) || (!false && base.length != 0) then
        base ++ ['/'] else base) ++ rel).length := by
      split_ifs <;> simp only [List.length_append, List.length_cons, List.length_nil] <;> omega
    simp only [Bool.not_false, Bool.true_and, Bool.false_and, Bool.false_or, bne_iff_ne, ne_eq,
      decide_eq_true_eq] at hl ⊢
    omega

/-- While the unread input has no `..` element the buffer only grows: it stays the
buffer `base` it started from, or `base`, a separator where `base` needs one, and a
relative path that passes `relOK`. -/
theorem cleanLoop_noDotDot (rooted : Bool) (base : Str)
    (hbase : rooted = true → base ≠ []) (fuel : Nat) :
    ∀ (rest : Str) (st : CleanState), hasDotDotElem true rest = false →
      (st.out = base ∨ ∃ rel, relOK rel = true ∧
        st.out = (if (rooted && base.length != 1) || (!rooted && base.length != 0) then
          base ++ ['/'] else base) ++ rel) →
      ((cleanLoop rooted fuel rest st).out = base ∨ ∃ rel, relOK rel = true ∧
        (cleanLoop rooted fuel rest st).out =
          (if (rooted && base.length != 1) || (!rooted && base.length != 0) then
            base ++ ['/'] else base) ++ rel) := by
  induction fuel with
  | zero => intro rest st _ h; exact h
  | succ n ih =>
    intro rest st hdd h
    cases rest with
    | nil => exact h
    | cons c t =>
      simp only [cleanLoop]
      by_cases h1 : isPathSeparator c = true
      · rw [if_pos h1]
        rw [hasDotDotElem_sep true c t h1] at hdd
        exact ih _ _ hdd h
      · rw [if_neg h1]
        have hc : isPathSeparator c = false := by simpa using h1
        by_cases h2 : (c == '.' &&
            (t.isEmpty || (t.head?.map isPathSeparator == some true))) = true
        · rw [if_pos h2]
          have ht : (t.isEmpty || (t.head?.map isPathSeparator == some true)) = true := by
            simp only [Bool.and_eq_true] at h2
            exact h2.2
          simp only [hasDotDotElem, Bool.or_eq_false_iff] at hdd
          have := hdd.2
          rw [hasDotDotElem_flag _ t ht] at this
          exact ih _ _ this h
        · rw [if_neg h2]
          by_cases h3 : (c == '.' && t.head? == some '.' &&
              (t.tail.isEmpty || (t.tail.head?.map isPathSeparator == some true))) = true
          · exfalso
            simp only [hasDotDotElem, dotdotAt, Bool.or_eq_false_iff, Bool.true_and] at hdd
            rw [h3] at hdd
            exact Bool.noConfusion hdd.1
          · rw [if_neg h3]
            have htw : (c :: t).takeWhile (fun x => !isPathSeparator x) =
                c :: t.takeWhile (fun x => !isPathSeparator x) := by
              simp [List.takeWhile_cons, hc]
            rw [htw]
            have hplain := plainElem_takeWhile c t hc h2 h3
            refine ih _ _ (hasDotDotElem_dropWhile true _ hdd) (Or.inr ?_)
            rcases h with h | ⟨rel, hrel, h⟩
            · exact ⟨_, plainElem_rest _ hplain, by rw [h]⟩
            · refine ⟨rel ++ '/' :: (c :: t.takeWhile (fun x => !isPathSeparator x)),
                relOK_append rel _ hrel, ?_⟩
              have hrne : rel ≠ [] := by
                intro h0
                rw [h0] at hrel
                simp [relOK] at hrel
              have hcond : ((rooted && st.out.length != 1) ||
                  (!rooted && st.out.length != 0)) = true := by
                rw [h]
                exact sepCond_grown rooted base rel hbase hrne
              show (if ((rooted && st.out.length != 1) ||
                  (!rooted && st.out.length != 0)) = true then st.out ++ ['/'] else st.out) ++
                  c :: t.takeWhile (fun x => !isPathSeparator x) = _
              rw [if_pos hcond, h]
              simp

theorem exists_last_sep (l : Str) (h : '/' ∈ l) :
    ∃ n1 n2 : Str, l = n1 ++ '/' :: n2 ∧ '/' ∉ n2 := by
  induction l with
  | nil => simp at h
  | cons c t ih =>
    by_cases ht : '/' ∈ t
    · obtain ⟨n1, n2, rfl, hn2⟩ := ih ht
      exact ⟨c :: n1, n2, rfl, hn2⟩
    · rcases List.mem_cons.mp h with hc | hc
      · exact ⟨[], t, by simp [← hc], ht⟩
      · exact absurd hc ht


/-- The last element of a joined name: after a buffer that is `base` or has grown from
it, a separator and a plain element leave a buffer that has grown from `base`. -/
theorem cleanLoop_lastElem (rooted : Bool) (base last : Str) (hbase : rooted = true → base ≠ [])
    (hlast : PlainElem last) (st : CleanState)
    (h : st.out = base ∨ ∃ rel, relOK rel = true ∧
      st.out = (if (rooted && base.length != 1) || (!rooted && base.length != 0) then
        base ++ ['/'] else base) ++ rel) :
    ∃ rel, relOK rel = true ∧
      (cleanLoop rooted (last.length + 1) ('/' :: last) st).out =
        (if (rooted && base.length != 1) || (!rooted && base.length != 0) then
          base ++ ['/'] else base) ++ rel := by
  have hstep : cleanLoop rooted (last.length + 1) ('/' :: last) st =
      cleanLoop rooted last.length last st := by
    simp [cleanLoop, isPathSeparator]
  have hlen : 1 ≤ last.length := List.length_pos.mpr hlast.1
  rw [hstep, cleanLoop_plainElem rooted last hlast st _ hlen]
  rcases h with h | ⟨rel, hrel, h⟩
  · exact ⟨last, plainElem_rest last hlast, by rw [h]⟩
  · have hrne : rel ≠ [] := by
      intro h0
      rw [h0] at hrel
      simp [relOK] at hrel
    have hcond : ((rooted && st.out.length != 1) || (!rooted && st.out.length != 0)) = true := by
      rw [h]
      exact sepCond_grown rooted base rel hbase hrne
    refine ⟨rel ++ '/' :: last, relOK_append rel last hrel, ?_⟩
    show (if ((rooted && st.out.length != 1) || (!rooted && st.out.length != 0)) = true then
      st.out ++ ['/'] else st.out) ++ last = _
    rw [if_pos hcond, h]
    simp

theorem plainElem_jpeg (fileName : Str) (h : '/' ∉ fileName) : PlainElem (fileName ++ jpegExt) := by
  have hlen : (fileName ++ jpegExt).length = fileName.length + 5 := by simp [jpegExt]
  refine ⟨?_, ?_, ?_, ?_⟩
  · intro h0
    rw [h0] at hlen
    simp at hlen
  · intro hm
    rcases List.mem_append.mp hm with hm | hm
    · exact h hm
    · simp [jpegExt] at hm
  · intro h0
    rw [h0] at hlen
    simp at hlen
  · intro h0
    rw [h0] at hlen
    simp at hlen

/-- The loop on a path followed by a separator and a name with the JPEG extension
that has no `..` element: the buffer reached on the path alone, grown by a relative
path. -/
theorem cleanLoop_join_name (rooted : Bool) (a0 n : Str) (st0 : CleanState) (f : Nat)
    (hf : (a0 ++ '/' :: (n ++ jpegExt)).length ≤ f)
    (hbase : rooted = true → (cleanLoop rooted a0.length a0 st0).out ≠ [])
    (hdd : hasDotDotElem true (n ++ jpegExt) = false) :
    ∃ rel, relOK rel = true ∧
      (cleanLoop rooted f (a0 ++ '/' :: (n ++ jpegExt)) st0).out =
        (if (rooted && (cleanLoop rooted a0.length a0 st0).out.length != 1) ||
            (!rooted && (cleanLoop rooted a0.length a0 st0).out.length != 0) then
          (cleanLoop rooted a0.length a0 st0).out ++ ['/']
        else (cleanLoop rooted a0.length a0 st0).out) ++ rel := by
  by_cases hn : '/' ∈ n
  · obtain ⟨n1, n2, rfl, hn2⟩ := exists_last_sep n hn
    have hlast := plainElem_jpeg n2 hn2
    have hF : (n1 ++ '/' :: n2) ++ jpegExt = n1 ++ '/' :: (n2 ++ jpegExt) := by simp
    rw [hF] at hdd hf ⊢
    have hpath : a0 ++ '/' :: (n1 ++ '/' :: (n2 ++ jpegExt)) =
        (a0 ++ '/' :: n1) ++ '/' :: (n2 ++ jpegExt) := by simp
    have h1 := cleanLoop_append_sep rooted (a0 ++ '/' :: n1).length (a0 ++ '/' :: n1)
      (n2 ++ jpegExt) st0 f (a0 ++ '/' :: n1).length ((n2 ++ jpegExt).length + 1) (le_refl _)
      (by rw [← hpath]; exact hf) (le_refl _) (by simp)
    have h2 := cleanLoop_append_sep rooted a0.length a0 n1 st0 (a0 ++ '/' :: n1).length
      a0.length (n1.length + 1) (le_refl _) (le_refl _) (le_refl _) (by simp)
    rw [hpath, h1, h2]
    have hdd1 : hasDotDotElem true ('/' :: n1) = false := by
      rw [hasDotDotElem_sep true '/' n1 rfl]
      exact hasDotDotElem_append_sep true n1 _ hdd
    have hinv := cleanLoop_noDotDot rooted (cleanLoop rooted a0.length a0 st0).out hbase
      (n1.length + 1) ('/' :: n1) (cleanLoop rooted a0.length a0 st0) hdd1 (Or.inl rfl)
    exact cleanLoop_lastElem rooted _ (n2 ++ jpegExt) hbase hlast _ hinv
  · have hlast := plainElem_jpeg n hn
    have h1 := cleanLoop_append_sep rooted a0.length a0 (n ++ jpegExt) st0 f a0.length
      ((n ++ jpegExt).length + 1) (le_refl _) hf (le_refl _) (by simp)
    rw [h1]
    exact cleanLoop_lastElem rooted _ (n ++ jpegExt) hbase hlast _ (Or.inl rfl)

/-- Joining a non-empty directory with a name that carries the JPEG extension and has
no `..` element gives a path below the cleaned directory. -/
theorem filepathJoin_noDotDot_below (a n : Str) (ha : a ≠ [])
    (hdd : hasDotDotElem true (n ++ jpegExt) = false) :
    isBelow (filepathClean a) (filepathJoin a (n ++ jpegExt)) = true := by
  have hj : filepathJoin a (n ++ jpegExt) = filepathClean (a ++ '/' :: (n ++ jpegExt)) := by
    simp [filepathJoin, ha]
  rw [hj]
  cases a with
  | nil => exact absurd rfl ha
  | cons c t =>
    by_cases hc : isPathSeparator c = true
    · -- rooted
      have hr : (((c :: t).head?.map isPathSeparator) == some true) = true := by simp [hc]
      have hr' : (((c :: t ++ '/' :: (n ++ jpegExt)).head?.map isPathSeparator) == some true) =
          true := by simp [hc]
      have hinv0 := cleanLoop_rooted_inv (c :: t).length t ⟨['/'], 1⟩ ⟨rfl, rfl⟩
      have hfuel := cleanLoop_fuel true (c :: t).length t.length t ⟨['/'], 1⟩ (by simp)
        (le_refl _)
      rw [hfuel] at hinv0
      have hbne : (cleanLoop true t.length t ⟨['/'], 1⟩).out ≠ [] := by
        intro h0
        have := hinv0.1
        rw [h0] at this
        simp at this
      obtain ⟨rel, hrel, hout⟩ := cleanLoop_join_name true t n ⟨['/'], 1⟩
        (c :: t ++ '/' :: (n ++ jpegExt)).length (by simp) (fun _ => hbne) hdd
      have hca : filepathClean (c :: t) = (cleanLoop true t.length t ⟨['/'], 1⟩).out := by
        simp only [filepathClean, List.isEmpty_cons, Bool.false_eq_true, if_false, hr, if_true,
          List.tail_cons, hfuel]
        simp [hbne]
      have hcj : filepathClean (c :: t ++ '/' :: (n ++ jpegExt)) =
          (cleanLoop true (c :: t ++ '/' :: (n ++ jpegExt)).length (t ++ '/' :: (n ++ jpegExt))
            ⟨['/'], 1⟩).out := by
        have hrne : rel ≠ [] := by
          intro h0
          rw [h0] at hrel
          simp [relOK] at hrel
        simp only [filepathClean, hr', if_true]
        rw [show (c :: t ++ '/' :: (n ++ jpegExt)).tail = t ++ '/' :: (n ++ jpegExt) from rfl,
          show ((c :: t ++ '/' :: (n ++ jpegExt)).isEmpty) = false from rfl, hout]
        simp [hrne]
      rw [hca, hcj, hout]
      generalize (cleanLoop true t.length t ⟨['/'], 1⟩).out = base at hinv0 hbne ⊢
      cases base with
      | nil => exact absurd rfl hbne
      | cons x o =>
        have hx : x = '/' := by simpa using hinv0.1
        subst hx
        cases o with
        | nil => simpa using isBelow_slash rel hrel
        | cons y o' =>
          have := isBelow_child ('/' :: y :: o') rel hrel (by simp) (by simp)
          simpa using this
    · -- not rooted
      have hc' : isPathSeparator c = false := by simpa using hc
      have hr : (((c :: t).head?.map isPathSeparator) == some true) = false := by simp [hc']
      have hr' : (((c :: t ++ '/' :: (n ++ jpegExt)).head?.map isPathSeparator) == some true) =
          false := by simp [hc']
      have hinv0 := cleanLoop_unrooted_inv (c :: t).length (c :: t) ⟨[], 0⟩ (by simp)
      obtain ⟨rel, hrel, hout⟩ := cleanLoop_join_name false (c :: t) n ⟨[], 0⟩
        (c :: t ++ '/' :: (n ++ jpegExt)).length (le_refl _)
        (fun h => Bool.noConfusion h) hdd
      have hrne : rel ≠ [] := by
        intro h0
        rw [h0] at hrel
        simp [relOK] at hrel
      have hca : filepathClean (c :: t) =
          (if (cleanLoop false (c :: t).length (c :: t) ⟨[], 0⟩).out.length == 0 then ['.']
            else (cleanLoop false (c :: t).length (c :: t) ⟨[], 0⟩).out) := by
        simp only [filepathClean, List.isEmpty_cons, Bool.false_eq_true, if_false, hr]
      have hcj : filepathClean (c :: t ++ '/' :: (n ++ jpegExt)) =
          (cleanLoop false (c :: t ++ '/' :: (n ++ jpegExt)).length
            (c :: t ++ '/' :: (n ++ jpegExt)) ⟨[], 0⟩).out := by
        simp only [filepathClean, hr', Bool.false_eq_true, if_false]
        rw [show ((c :: t ++ '/' :: (n ++ jpegExt)).isEmpty) = false from rfl]
        simp only [Bool.false_eq_true, if_false]
        rw [hout]
        simp [hrne]
      rw [hca, hcj, hout]
      generalize (cleanLoop false (c :: t).length (c :: t) ⟨[], 0⟩).out = base at hinv0 ⊢
      cases base with
      | nil => simpa using isBelow_dot rel hrel
      | cons x o =>
        have hx : x ≠ '/' := by
          intro hx
          exact hinv0 (by simp [hx])
        by_cases hd : x :: o = ['.']
        · rw [hd]
          have hh : relOK ('.' :: '/' :: rel) = true := by
            simp [relOK, List.isPrefixOf]
          simpa [isBelow] using hh
        · have := isBelow_child (x :: o) rel hrel hd (by
            intro h
            simp only [List.cons.injEq] at h
            exact hx h.1)
          simpa using this


/-! ## Lemmas on the filesystem state -/

theorem FS.erase_cons (e : Str × Node) (rest : FS) (p : Str) :
    FS.erase (e :: rest) p = if e.1 = p then FS.erase rest p else e :: FS.erase rest p := by
  by_cases h : e.1 = p <;> simp [FS.erase, List.filter_cons, h]

theorem FS.lookup_cons (q : Str) (n : Node) (rest : FS) (p : Str) :
    FS.lookup ((q, n) :: rest) p = if q = p then some n else FS.lookup rest p := rfl

theorem FS.lookup_erase_self (fs : FS) (p : Str) : FS.lookup (FS.erase fs p) p = none := by
  induction fs with
  | nil => rfl
  | cons e rest ih =>
    obtain ⟨q, n⟩ := e
    rw [FS.erase_cons]
    by_cases hq : q = p
    · simpa [hq] using ih
    · simpa [hq, FS.lookup_cons] using ih

theorem FS.lookup_erase_ne (fs : FS) (p q : Str) (h : q ≠ p) :
    FS.lookup (FS.erase fs p) q = FS.lookup fs q := by
  induction fs with
  | nil => rfl
  | cons e rest ih =>
    obtain ⟨r, n⟩ := e
    rw [FS.erase_cons]
    by_cases hr : r = p
    · have hrq : ¬ p = q := fun hh => h hh.symm
      simpa [hr, FS.lookup_cons, hrq] using ih
    · by_cases hrq : r = q
      · subst hrq
        simp [hr, FS.lookup_cons]
      · simpa [hr, FS.lookup_cons, hrq] using ih

theorem FS.lookup_write_self (fs : FS) (p : Str) (n : Node) :
    FS.lookup (FS.write fs p n) p = some n := by
  simp [FS.write, FS.lookup]

theorem FS.lookup_write_ne (fs : FS) (p q : Str) (n : Node) (h : q ≠ p) :
    FS.lookup (FS.write fs p n) q = FS.lookup fs q := by
  have hpq : p ≠ q := fun hh => h hh.symm
  simp [FS.write, FS.lookup, hpq, FS.lookup_erase_ne fs p q h]

/-- A successful `os.Remove` erases exactly the entry it was called on, which was a
regular file or a directory that is not special and has no entry below it. -/
theorem osRemove_ok (fl : Faults) (fs fs1 : FS) (p : Str) (h : osRemove fl fs p = .ok fs1) :
    fs1 = FS.erase fs p ∧
      ∃ n, FS.lookup fs p = some n ∧ (n = Node.dir → FS.hasEntryBelow fs p = false) := by
  unfold osRemove at h
  split at h
  · cases h
  · split at h
    · cases h
    · split at h
      · cases h
      · cases h
        exact ⟨rfl, _, by assumption, by intro hh; cases hh⟩
      · split at h
        · cases h
        · split at h
          · cases h
          · cases h
            refine ⟨rfl, _, by assumption, fun _ => ?_⟩
            simpa using ‹¬ FS.hasEntryBelow fs p = true›

/-- When `os.Remove` is not refused by the system, no regular file is among the
ancestors and the path names a regular file, the file is erased. -/
theorem osRemove_file (fl : Faults) (fs : FS) (p : Str) (n : Nat) (hf : fl.remove p = none)
    (ha : FS.hasFileAncestor fs p = false) (hl : FS.lookup fs p = some (.file n)) :
    osRemove fl fs p = .ok (FS.erase fs p) := by
  simp [osRemove, hf, ha, hl]

/-- When `os.Remove` is not refused by the system, no regular file is among the
ancestors and the path names a directory that is not special and has no entry below
it, the directory is erased. -/
theorem osRemove_emptyDir (fl : Faults) (fs : FS) (p : Str) (hf : fl.remove p = none)
    (ha : FS.hasFileAncestor fs p = false) (hl : FS.lookup fs p = some .dir)
    (hsp : isSpecialDir p = false) (hb : FS.hasEntryBelow fs p = false) :
    osRemove fl fs p = .ok (FS.erase fs p) := by
  simp [osRemove, hf, ha, hl, hsp, hb]

/-- A successful `os.Stat` returns the entry the path names. -/
theorem osStat_ok (fl : Faults) (fs : FS) (p : Str) (n : Node) (h : osStat fl fs p = .ok n) :
    fl.stat p = none ∧ FS.hasFileAncestor fs p = false ∧ FS.lookup fs p = some n := by
  unfold osStat at h
  split at h
  · cases h
  · rename_i hfl
    split at h
    · cases h
    · rename_i ha
      split at h
      · cases h
      · rename_i m hl
        cases h
        exact ⟨hfl, by simpa using ha, hl⟩

/-- The call `os.Stat` reports not-exist exactly when the system has no fault for the
path, no regular file is among its ancestors and it names no entry. -/
theorem osIsNotExist_osStat (fl : Faults) (fs : FS) (p : Str) :
    osIsNotExist (osStat fl fs p) = true ↔
      (fl.stat p = none ∧ FS.hasFileAncestor fs p = false ∧ FS.lookup fs p = none) := by
  unfold osStat
  cases hfl : fl.stat p with
  | some f => simp [osIsNotExist]
  | none =>
    cases ha : FS.hasFileAncestor fs p with
    | true => simp [osIsNotExist]
    | false => cases hl : FS.lookup fs p <;> simp [osIsNotExist]

/-- Erasing an entry creates no regular-file ancestor. -/
theorem FS.hasFileAncestor_erase (fs : FS) (p q : Str)
    (h : FS.hasFileAncestor fs q = false) : FS.hasFileAncestor (FS.erase fs p) q = false := by
  unfold FS.hasFileAncestor at h ⊢
  rw [List.any_eq_false] at h ⊢
  intro e he
  exact h e (List.mem_of_mem_filter he)

/-- A successful `imaging.Save` leaves a regular file at the path, whose size is the
size the encoder produced. -/
theorem imagingSave_ok (env : Env) (fs fs1 : FS) (img : Image) (p : Str)
    (h : imagingSave env fs img p = (fs1, true)) :
    ∃ n, env.jpegEncode img = .ok n ∧ fs1 = FS.write fs p (.file n) := by
  unfold imagingSave at h
  split at h
  · cases h
  · split at h
    · cases h
    · cases h
      exact ⟨_, by assumption, rfl⟩

/-! ## The upload handler -/

/-- The handler's outcome once authorisation, the size check, opening and decoding
have succeeded: the part of `uploadHandler` after `// process image`. -/
theorem uploadHandler_decoded (cfg : Config) (env : Env) (c : UploadRequest) (fs : FS)
    (f : FormFile) (img : Image) (hk : c.get = cfg.apiKey) (hf : c.formFile = some f)
    (hs : f.size ≤ maxFileSize) (ho : f.openErr = false) (hd : f.decoded = some img) :
    uploadHandler cfg env c fs =
      (let fileName := if c.formValue = [] then env.uuid else c.formValue
       let finalFileName := fileName ++ jpegExt
       let filePath := filepathJoin cfg.uploadDir finalFileName
       let resizedImage := imagingResize img 1280 0
       let calls := [Call.fileOpen, .imageDecode, .save filePath resizedImage]
       match imagingSave env fs resizedImage filePath with
       | (fs1, false) =>
         ⟨.error StatusInternalServerError "Failed to save image", fs1, calls⟩
       | (fs1, true) =>
         match osStat env.faults fs1 filePath with
         | .error _ =>
           ⟨.error StatusInternalServerError "Failed to get file info", fs1,
             calls ++ [.stat filePath]⟩
         | .ok info =>
           ⟨.json (c.baseURL ++ '/' :: finalFileName) info.size, fs1,
             calls ++ [.stat filePath]⟩) := by
  have hs' : ¬ f.size > maxFileSize := Nat.not_lt.mpr hs
  simp only [uploadHandler, hk, hf, hd, ho, hs', ne_eq, not_true_eq_false, if_false]
  rfl

/-- A JSON answer is only given at the end of the handler: the key matched, the file
field was present, within the size limit, opened and decoded. -/
theorem uploadHandler_json_inv (cfg : Config) (env : Env) (c : UploadRequest) (fs : FS)
    (url : Str) (size : Nat) (h : (uploadHandler cfg env c fs).resp = .json url size) :
    c.get = cfg.apiKey ∧ ∃ f img, c.formFile = some f ∧ f.size ≤ maxFileSize ∧
      f.openErr = false ∧ f.decoded = some img := by
  by_cases hk : c.get = cfg.apiKey
  · refine ⟨hk, ?_⟩
    cases hf : c.formFile with
    | none => simp [uploadHandler, hk, hf] at h
    | some f =>
      by_cases hs : f.size > maxFileSize
      · simp [uploadHandler, hk, hf, hs] at h
      · cases ho : f.openErr with
        | true => simp [uploadHandler, hk, hf, hs, ho] at h
        | false =>
          cases hd : f.decoded with
          | none => simp [uploadHandler, hk, hf, hs, ho, hd] at h
          | some img => exact ⟨f, img, rfl, Nat.not_lt.mp hs, ho, hd⟩
  · simp [uploadHandler, hk] at h

/-- C1: a POST /upload request whose X-API-Key header (read as the empty string when
absent) differs from the configured key is answered 401 Unauthorized whatever the
rest of the request is; the filesystem is left as it was and no library call (open,
decode, save, stat) is made. -/
theorem upload_wrong_key_unauthorized (cfg : Config) (env : Env) (c : UploadRequest)
    (fs : FS) (h : c.apiKeyHeader.getD [] ≠ cfg.apiKey) :
    (uploadHandler cfg env c fs).resp = .error 401 "Unauthorized to upload file" ∧
      (uploadHandler cfg env c fs).fs = fs ∧ (uploadHandler cfg env c fs).calls = [] := by
  have h' : c.get ≠ cfg.apiKey := h
  simp [uploadHandler, h', StatusUnauthorized]

/-- The size test of the handler itself: once a request with the correct key and a file
field has reached it, the handler answers 400 "File size limit exceeded: 20MB" exactly
when the file's size is greater than 20 * 1024 * 1024 bytes, whatever the content
decodes to, before the file is opened or decoded and without touching the
filesystem. -/
theorem uploadHandler_size_check (cfg : Config) (env : Env) (c : UploadRequest) (fs : FS)
    (f : FormFile) (hk : c.apiKeyHeader.getD [] = cfg.apiKey) (hf : c.formFile = some f) :
    ((uploadHandler cfg env c fs).resp = .error 400 "File size limit exceeded: 20MB" ↔
        20 * 1024 * 1024 < f.size) ∧
      (20 * 1024 * 1024 < f.size →
        (uploadHandler cfg env c fs).fs = fs ∧ (uploadHandler cfg env c fs).calls = []) := by
  have hk' : c.get = cfg.apiKey := hk
  by_cases hs : f.size > maxFileSize
  · have hs' : 20 * 1024 * 1024 < f.size := hs
    simp [uploadHandler, hk', hf, hs, hs', StatusBadRequest]
  · have hs' : ¬ 20 * 1024 * 1024 < f.size := hs
    refine ⟨⟨fun h => ?_, fun h => absurd h hs'⟩, fun h => absurd h hs'⟩
    exfalso
    cases ho : f.openErr with
    | true => simp [uploadHandler, hk', hf, hs, ho, StatusInternalServerError] at h
    | false =>
      cases hd : f.decoded with
      | none => simp [uploadHandler, hk', hf, hs, ho, hd, StatusUnsupportedMediaType] at h
      | some img =>
        rw [uploadHandler_decoded cfg env c fs f img hk' hf (Nat.not_lt.mp hs) ho hd] at h
        simp only at h
        split at h
        · simp [StatusInternalServerError] at h
        · split at h
          · simp [StatusInternalServerError] at h
          · simp at h

/-- Through the server the size test of the handler never fires: a request whose body
contains the file is refused with 413 by the framework long before the file can
exceed 20 MiB, so no request is answered 400 "File size limit exceeded: 20MB". -/
theorem serveUpload_size_check_unreachable (cfg : Config) (env : Env) (bodyLen : Nat)
    (c : UploadRequest) (fs : FS) (f : FormFile) (hf : c.formFile = some f)
    (hlen : f.size ≤ bodyLen) :
    (serveUpload cfg env bodyLen c fs).resp ≠ .error 400 "File size limit exceeded: 20MB" := by
  unfold serveUpload
  by_cases hb : bodyLen > DefaultBodyLimit
  · rw [if_pos hb]
    simp [StatusRequestEntityTooLarge]
  · rw [if_neg hb]
    by_cases hk : c.get = cfg.apiKey
    · intro h
      have hsz := ((uploadHandler_size_check cfg env c fs f hk hf).1.mp h)
      have hlim : DefaultBodyLimit = 4 * 1024 * 1024 := rfl
      omega
    · simp [uploadHandler, hk, StatusUnauthorized]

/-- C5 (failing inputs): a valid image of 20,971,521 bytes, which the handler would
answer with 400 "File size limit exceeded: 20MB", and one of 5,000,000 bytes, which the
handler would accept, are both answered 413 by the server, because the body limit is
left at 4 MiB. -/
theorem upload_oversize_answered_413 :
    (uploadHandler sampleConfig sampleEnv
        ⟨some "key".toList, some ⟨20971521, false, some ⟨2000, 1000⟩⟩, none, "http://h".toList⟩
        sampleFS).resp = .error 400 "File size limit exceeded: 20MB" ∧
      (serveUpload sampleConfig sampleEnv (20971521 + 512)
        ⟨some "key".toList, some ⟨20971521, false, some ⟨2000, 1000⟩⟩, none, "http://h".toList⟩
        sampleFS).resp = .error 413 "Request Entity Too Large" ∧
      (uploadHandler sampleConfig sampleEnv
        ⟨some "key".toList, some ⟨5000000, false, some ⟨2000, 1000⟩⟩, some "cover".toList,
          "http://h".toList⟩
        sampleFS).resp = .json "http://h/cover.jpeg".toList 7 ∧
      (serveUpload sampleConfig sampleEnv (5000000 + 512)
        ⟨some "key".toList, some ⟨5000000, false, some ⟨2000, 1000⟩⟩, some "cover".toList,
          "http://h".toList⟩
        sampleFS).resp = .error 413 "Request Entity Too Large" := by
  decide

/-- C6: with the correct key and a file field of at most 20 MiB that opens, bytes that
do not decode as an image are answered 415 Unsupported Media Type for every value of
the name field; the filesystem is unchanged and the only calls made are the opening
and the decoding of the file. -/
theorem upload_undecodable_unsupported (cfg : Config) (env : Env) (c : UploadRequest)
    (fs : FS) (f : FormFile) (hk : c.apiKeyHeader.getD [] = cfg.apiKey)
    (hf : c.formFile = some f) (hs : f.size ≤ 20 * 1024 * 1024) (ho : f.openErr = false)
    (hd : f.decoded = none) :
    (uploadHandler cfg env c fs).resp = .error 415 "Invalid file format" ∧
      (uploadHandler cfg env c fs).fs = fs ∧
      (uploadHandler cfg env c fs).calls = [.fileOpen, .imageDecode] := by
  have hk' : c.get = cfg.apiKey := hk
  have hs' : ¬ f.size > maxFileSize := Nat.not_lt.mpr hs
  simp [uploadHandler, hk', hf, hs', ho, hd, StatusUnsupportedMediaType]

/-- What a JSON answer of the upload handler says about the call log and the
filesystem afterwards. -/
theorem uploadHandler_json_fs (cfg : Config) (env : Env) (c : UploadRequest) (fs : FS)
    (url : Str) (size : Nat) (h : (uploadHandler cfg env c fs).resp = .json url size) :
    url = c.baseURL ++ '/' :: ((if c.formValue = [] then env.uuid else c.formValue) ++ jpegExt) ∧
      (∃ img, (uploadHandler cfg env c fs).calls =
        [.fileOpen, .imageDecode,
          .save (filepathJoin cfg.uploadDir
            ((if c.formValue = [] then env.uuid else c.formValue) ++ jpegExt)) img,
          .stat (filepathJoin cfg.uploadDir
            ((if c.formValue = [] then env.uuid else c.formValue) ++ jpegExt))]) ∧
      FS.lookup (uploadHandler cfg env c fs).fs
        (filepathJoin cfg.uploadDir
          ((if c.formValue = [] then env.uuid else c.formValue) ++ jpegExt)) =
        some (.file size) := by
  obtain ⟨hk, f, img, hf, hs, ho, hd⟩ := uploadHandler_json_inv cfg env c fs url size h
  rw [uploadHandler_decoded cfg env c fs f img hk hf hs ho hd] at h ⊢
  simp only at h ⊢
  split at h
  · simp at h
  · rename_i fs1 hsave
    obtain ⟨n, -, rfl⟩ := imagingSave_ok _ _ _ _ _ hsave
    have hl := FS.lookup_write_self fs
      (filepathJoin cfg.uploadDir ((if c.formValue = [] then env.uuid else c.formValue) ++ jpegExt))
      (.file n)
    split at h
    · simp at h
    · rename_i info hstat
      obtain ⟨-, -, hinfo⟩ := osStat_ok _ _ _ _ hstat
      rw [hl] at hinfo
      cases hinfo
      simp only [Response.json.injEq] at h
      obtain ⟨h1, h2⟩ := h
      refine ⟨h1.symm, ⟨imagingResize img 1280 0, by simp [hstat]⟩, ?_⟩
      rw [← h2]
      simpa [hstat] using hl

/-- C9: when the upload handler answers with the JSON object (url, size_after), it
saved the resized image at filepath.Join(uploadDir, F), url is the base URL followed
by "/" and F, and the filesystem afterwards has a regular file of size_after bytes at
that path; F is the name field followed by ".jpeg" when the field is non-empty and
the generated UUID followed by ".jpeg" when it is empty or absent. -/
theorem upload_success_location (cfg : Config) (env : Env) (c : UploadRequest) (fs : FS)
    (url : Str) (size : Nat) (h : (uploadHandler cfg env c fs).resp = .json url size) :
    url = c.baseURL ++ ['/'] ++
        ((match c.name with
          | some n => if n = [] then env.uuid else n
          | none => env.uuid) ++ ['.', 'j', 'p', 'e', 'g']) ∧
      (∃ img, Call.save (filepathJoin cfg.uploadDir
        ((match c.name with
          | some n => if n = [] then env.uuid else n
          | none => env.uuid) ++ ['.', 'j', 'p', 'e', 'g'])) img ∈
        (uploadHandler cfg env c fs).calls) ∧
      FS.lookup (uploadHandler cfg env c fs).fs (filepathJoin cfg.uploadDir
        ((match c.name with
          | some n => if n = [] then env.uuid else n
          | none => env.uuid) ++ ['.', 'j', 'p', 'e', 'g'])) = some (.file size) := by
  obtain ⟨h1, ⟨img, h2⟩, h3⟩ := uploadHandler_json_fs cfg env c fs url size h
  have hF : (if c.formValue = [] then env.uuid else c.formValue) =
      (match c.name with
        | some n => if n = [] then env.uuid else n
        | none => env.uuid) := by
    cases hn : c.name <;> simp [UploadRequest.formValue, hn]
  rw [hF] at h1 h2 h3
  refine ⟨?_, ?_, h3⟩
  · rw [h1]; simp [jpegExt]
  · exact ⟨img, by rw [h2]; simp [jpegExt]⟩

/-! ## The delete handler -/

/-- The delete handler changes the filesystem at most at the path it resolves. -/
theorem deleteHandler_frame (cfg : Config) (env : Env) (c : DeleteRequest) (fs : FS) (q : Str)
    (hq : q ≠ filepathJoin cfg.uploadDir c.wildcard) :
    FS.lookup (deleteHandler cfg env c fs).fs q = FS.lookup fs q := by
  unfold deleteHandler
  split
  · rfl
  · simp only
    split
    · rfl
    · split
      · rfl
      · split
        · rfl
        · rename_i fs1 hrm
          obtain ⟨rfl, -⟩ := osRemove_ok _ _ _ _ hrm
          exact FS.lookup_erase_ne fs _ q hq

/-- The delete handler once the key has matched and the wildcard is not empty: the
part of `deleteHandler` from `filepath.Join` on. -/
theorem deleteHandler_authorized (cfg : Config) (env : Env) (c : DeleteRequest) (fs : FS)
    (hk : c.get = cfg.apiKey) (hw : c.wildcard ≠ []) :
    deleteHandler cfg env c fs =
      (if osIsNotExist (osStat env.faults fs (filepathJoin cfg.uploadDir c.wildcard)) then
        ⟨.error StatusNotFound "No file found", fs,
          [.stat (filepathJoin cfg.uploadDir c.wildcard)]⟩
      else
        match osRemove env.faults fs (filepathJoin cfg.uploadDir c.wildcard) with
        | .error _ =>
          ⟨.error StatusInternalServerError "Cannot delete file", fs,
            [.stat (filepathJoin cfg.uploadDir c.wildcard),
              .remove (filepathJoin cfg.uploadDir c.wildcard)]⟩
        | .ok fs1 =>
          ⟨.sendString "File deleted successfully", fs1,
            [.stat (filepathJoin cfg.uploadDir c.wildcard),
              .remove (filepathJoin cfg.uploadDir c.wildcard)]⟩) := by
  simp only [deleteHandler, hk, hw, ne_eq, not_true_eq_false, if_false]

/-- C4 (as amended): the delete handler's answer follows the ordered chain 401 (key
differs), 400 (empty wildcard segment), 404 exactly when os.Stat of
filepath.Join(uploadDir, segment) reports not-exist (no fault of the system, no
regular file among the ancestors, no entry at the path), otherwise 500 when os.Remove
fails and 200 "File deleted successfully" with the entry erased when the path names a
regular file or an empty directory that os.Remove is not refused; a path under a
regular file is answered 500; every answer other than 200 leaves the filesystem
unchanged. -/
theorem delete_chain (cfg : Config) (env : Env) (c : DeleteRequest) (fs : FS) :
    (c.apiKeyHeader.getD [] ≠ cfg.apiKey →
        (deleteHandler cfg env c fs).resp = .error 401 "Unauthorized to delete file") ∧
      (c.apiKeyHeader.getD [] = cfg.apiKey → c.wildcard = [] →
        (deleteHandler cfg env c fs).resp = .error 400 "No file name found") ∧
      (c.apiKeyHeader.getD [] = cfg.apiKey → c.wildcard ≠ [] →
        ((deleteHandler cfg env c fs).resp = .error 404 "No file found" ↔
          osIsNotExist (osStat env.faults fs (filepathJoin cfg.uploadDir c.wildcard)) =
            true)) ∧
      (osIsNotExist (osStat env.faults fs (filepathJoin cfg.uploadDir c.wildcard)) = true ↔
        (env.faults.stat (filepathJoin cfg.uploadDir c.wildcard) = none ∧
          FS.hasFileAncestor fs (filepathJoin cfg.uploadDir c.wildcard) = false ∧
          FS.lookup fs (filepathJoin cfg.uploadDir c.wildcard) = none)) ∧
      (c.apiKeyHeader.getD [] = cfg.apiKey → c.wildcard ≠ [] →
        osIsNotExist (osStat env.faults fs (filepathJoin cfg.uploadDir c.wildcard)) = false →
        ∀ e, osRemove env.faults fs (filepathJoin cfg.uploadDir c.wildcard) = .error e →
        (deleteHandler cfg env c fs).resp = .error 500 "Cannot delete file") ∧
      (c.apiKeyHeader.getD [] = cfg.apiKey → c.wildcard ≠ [] →
        osIsNotExist (osStat env.faults fs (filepathJoin cfg.uploadDir c.wildcard)) = false →
        env.faults.remove (filepathJoin cfg.uploadDir c.wildcard) = none →
        FS.hasFileAncestor fs (filepathJoin cfg.uploadDir c.wildcard) = false →
        ((∃ n, FS.lookup fs (filepathJoin cfg.uploadDir c.wildcard) = some (.file n)) ∨
          (FS.lookup fs (filepathJoin cfg.uploadDir c.wildcard) = some .dir ∧
            isSpecialDir (filepathJoin cfg.uploadDir c.wildcard) = false ∧
            FS.hasEntryBelow fs (filepathJoin cfg.uploadDir c.wildcard) = false)) →
        (deleteHandler cfg env c fs).resp = .sendString "File deleted successfully" ∧
          (deleteHandler cfg env c fs).fs =
            FS.erase fs (filepathJoin cfg.uploadDir c.wildcard) ∧
          FS.lookup (deleteHandler cfg env c fs).fs (filepathJoin cfg.uploadDir c.wildcard) =
            none) ∧
      (c.apiKeyHeader.getD [] = cfg.apiKey → c.wildcard ≠ [] →
        env.faults.stat (filepathJoin cfg.uploadDir c.wildcard) = none →
        FS.hasFileAncestor fs (filepathJoin cfg.uploadDir c.wildcard) = true →
        (deleteHandler cfg env c fs).resp = .error 500 "Cannot delete file") ∧
      ((deleteHandler cfg env c fs).resp.status ≠ 200 → (deleteHandler cfg env c fs).fs = fs) := by
  refine ⟨?_, ?_, ?_, osIsNotExist_osStat _ _ _, ?_, ?_, ?_, ?_⟩
  · intro hk
    have hk' : c.get ≠ cfg.apiKey := hk
    simp [deleteHandler, hk', StatusUnauthorized]
  · intro hk hw
    have hk' : c.get = cfg.apiKey := hk
    simp [deleteHandler, hk', hw, StatusBadRequest]
  · intro hk hw
    rw [deleteHandler_authorized cfg env c fs hk hw]
    by_cases hne : osIsNotExist (osStat env.faults fs (filepathJoin cfg.uploadDir c.wildcard)) =
        true
    · simp [hne, StatusNotFound]
    · rw [if_neg hne]
      constructor
      · intro h
        split at h
        · simp [StatusInternalServerError] at h
        · simp at h
      · intro h
        exact absurd h hne
  · intro hk hw hne e hrm
    rw [deleteHandler_authorized cfg env c fs hk hw]
    simp [hne, hrm, StatusInternalServerError]
  · intro hk hw hne hfl ha hl
    have hrm : osRemove env.faults fs (filepathJoin cfg.uploadDir c.wildcard) =
        .ok (FS.erase fs (filepathJoin cfg.uploadDir c.wildcard)) := by
      rcases hl with ⟨n, hl⟩ | ⟨hl, hsp, hb⟩
      · exact osRemove_file _ _ _ n hfl ha hl
      · exact osRemove_emptyDir _ _ _ hfl ha hl hsp hb
    rw [deleteHandler_authorized cfg env c fs hk hw]
    simp [hne, hrm, FS.lookup_erase_self]
  · intro hk hw hfl ha
    have hne : osIsNotExist (osStat env.faults fs (filepathJoin cfg.uploadDir c.wildcard)) =
        false := by
      simp [osStat, hfl, ha, osIsNotExist]
    rw [deleteHandler_authorized cfg env c fs hk hw]
    have hrm : ∃ e, osRemove env.faults fs (filepathJoin cfg.uploadDir c.wildcard) =
        .error e := by
      unfold osRemove
      cases hr : env.faults.remove (filepathJoin cfg.uploadDir c.wildcard) with
      | some f => exact ⟨_, rfl⟩
      | none => exact ⟨.ENOTDIR, by simp [ha]⟩
    obtain ⟨e, hrm⟩ := hrm
    simp [hne, hrm, StatusInternalServerError]
  · intro hst
    unfold deleteHandler at hst ⊢
    split
    · rfl
    · simp only at hst ⊢
      split
      · rfl
      · split
        · rfl
        · split
          · rfl
          · rename_i fs1 hrm
            rw [if_neg (by assumption), if_neg (by assumption), if_neg (by assumption)] at hst
            simp [hrm, Response.status] at hst

/-- C4 (counterexample): below the regular file uploads/d/a.jpeg nothing exists at
uploads/d/a.jpeg/zz, yet DELETE /d/a.jpeg/zz with the correct key is answered 500
"Cannot delete file", not 404: os.Stat fails with ENOTDIR, which os.IsNotExist does
not match. -/
theorem delete_under_file_not_404 :
    FS.lookup [("uploads".toList, Node.dir), ("uploads/d".toList, Node.dir),
        ("uploads/d/a.jpeg".toList, Node.file 3)] "uploads/d/a.jpeg/zz".toList = none ∧
      osIsNotExist (osStat sampleEnv.faults
        [("uploads".toList, Node.dir), ("uploads/d".toList, Node.dir),
          ("uploads/d/a.jpeg".toList, Node.file 3)] "uploads/d/a.jpeg/zz".toList) = false ∧
      (deleteHandler sampleConfig sampleEnv ⟨some "key".toList, "d/a.jpeg/zz".toList⟩
        [("uploads".toList, Node.dir), ("uploads/d".toList, Node.dir),
          ("uploads/d/a.jpeg".toList, Node.file 3)]).resp =
        .error 500 "Cannot delete file" := by
  decide

/-- The percent-encoding leaves a string of path characters as it is. -/
theorem pathEscape_id (s : Str) (h : ∀ ch ∈ s, isPathChar ch = true) : pathEscape s = s := by
  induction s with
  | nil => rfl
  | cons x t ih =>
    have hx : isPathChar x = true := h x (by simp)
    have ht : pathEscape t = t := ih (fun ch hch => h ch (List.mem_cons_of_mem _ hch))
    unfold pathEscape at ht ⊢
    rw [List.flatMap_cons, ht]
    simp [hx]

/-- C7 (as amended): after an upload with a non-empty name N has succeeded, if N
consists of unreserved URL characters (so that the wildcard parameter of DELETE
/N.jpeg is N.jpeg itself) and os.Remove is not refused by the system at the written
path, the delete handler resolves the path the upload wrote, a DELETE with the correct
key answers 200 "File deleted successfully" and removes the file, and the same DELETE
repeated answers 404 "No file found". -/
theorem upload_then_delete_twice (cfg : Config) (env : Env) (c : UploadRequest) (fs : FS)
    (N url : Str) (size : Nat) (hn : c.name = some N) (hN : N ≠ [])
    (hunres : ∀ ch ∈ N, isUnreserved ch = true)
    (hrem : env.faults.remove (filepathJoin cfg.uploadDir (N ++ ['.', 'j', 'p', 'e', 'g'])) =
      none)
    (h : (uploadHandler cfg env c fs).resp = .json url size) :
    (deleteRequestFor cfg.apiKey (N ++ ['.', 'j', 'p', 'e', 'g'])).wildcard =
        N ++ ['.', 'j', 'p', 'e', 'g'] ∧
      (∃ img, Call.save (filepathJoin cfg.uploadDir (N ++ ['.', 'j', 'p', 'e', 'g'])) img ∈
        (uploadHandler cfg env c fs).calls) ∧
      FS.lookup (uploadHandler cfg env c fs).fs
        (filepathJoin cfg.uploadDir (N ++ ['.', 'j', 'p', 'e', 'g'])) = some (.file size) ∧
      (deleteHandler cfg env (deleteRequestFor cfg.apiKey (N ++ ['.', 'j', 'p', 'e', 'g']))
        (uploadHandler cfg env c fs).fs).resp = .sendString "File deleted successfully" ∧
      (deleteHandler cfg env (deleteRequestFor cfg.apiKey (N ++ ['.', 'j', 'p', 'e', 'g']))
        (uploadHandler cfg env c fs).fs).calls =
        [.stat (filepathJoin cfg.uploadDir (N ++ ['.', 'j', 'p', 'e', 'g'])),
          .remove (filepathJoin cfg.uploadDir (N ++ ['.', 'j', 'p', 'e', 'g']))] ∧
      FS.lookup (deleteHandler cfg env
        (deleteRequestFor cfg.apiKey (N ++ ['.', 'j', 'p', 'e', 'g']))
        (uploadHandler cfg env c fs).fs).fs
        (filepathJoin cfg.uploadDir (N ++ ['.', 'j', 'p', 'e', 'g'])) = none ∧
      (deleteHandler cfg env (deleteRequestFor cfg.apiKey (N ++ ['.', 'j', 'p', 'e', 'g']))
        (deleteHandler cfg env (deleteRequestFor cfg.apiKey (N ++ ['.', 'j', 'p', 'e', 'g']))
          (uploadHandler cfg env c fs).fs).fs).resp = .error 404 "No file found" := by
  have hesc : pathEscape (N ++ ['.', 'j', 'p', 'e', 'g']) = N ++ ['.', 'j', 'p', 'e', 'g'] := by
    apply pathEscape_id
    intro ch hch
    rcases List.mem_append.mp hch with hch | hch
    · simp [isPathChar, hunres ch hch]
    · have : ∀ x ∈ ['.', 'j', 'p', 'e', 'g'], isPathChar x = true := by decide
      exact this ch hch
  have hreq : deleteRequestFor cfg.apiKey (N ++ ['.', 'j', 'p', 'e', 'g']) =
      ⟨some cfg.apiKey, N ++ ['.', 'j', 'p', 'e', 'g']⟩ := by
    simp [deleteRequestFor, hesc]
  rw [hreq]
  -- what the successful upload left behind
  obtain ⟨hk, f, img0, hf, hs, ho, hd⟩ := uploadHandler_json_inv cfg env c fs url size h
  obtain ⟨-, ⟨img, h2⟩, h3⟩ := uploadHandler_json_fs cfg env c fs url size h
  have hF : (if c.formValue = [] then env.uuid else c.formValue) = N := by
    simp [UploadRequest.formValue, hn, hN]
  rw [hF, show jpegExt = ['.', 'j', 'p', 'e', 'g'] from rfl] at h2 h3
  -- the handler's own stat succeeded on the path
  have hstat : ∃ info, osStat env.faults (uploadHandler cfg env c fs).fs
      (filepathJoin cfg.uploadDir (N ++ ['.', 'j', 'p', 'e', 'g'])) = .ok info := by
    have h' := h
    rw [uploadHandler_decoded cfg env c fs f img0 hk hf hs ho hd] at h' ⊢
    rw [hF, show jpegExt = ['.', 'j', 'p', 'e', 'g'] from rfl] at h' ⊢
    simp only at h' ⊢
    split at h'
    · simp at h'
    · split at h'
      · simp at h'
      · rename_i info hst
        exact ⟨info, by simpa using hst⟩
  obtain ⟨info, hstat⟩ := hstat
  obtain ⟨hsf, hanc, -⟩ := osStat_ok _ _ _ _ hstat
  have hw : N ++ ['.', 'j', 'p', 'e', 'g'] ≠ [] := by simp
  have hne : osIsNotExist (osStat env.faults (uploadHandler cfg env c fs).fs
      (filepathJoin cfg.uploadDir (N ++ ['.', 'j', 'p', 'e', 'g']))) = false := by
    rw [hstat]
    rfl
  have hrm := osRemove_file env.faults (uploadHandler cfg env c fs).fs
    (filepathJoin cfg.uploadDir (N ++ ['.', 'j', 'p', 'e', 'g'])) size hrem hanc h3
  have hd1 : deleteHandler cfg env ⟨some cfg.apiKey, N ++ ['.', 'j', 'p', 'e', 'g']⟩
      (uploadHandler cfg env c fs).fs =
      ⟨.sendString "File deleted successfully",
        FS.erase (uploadHandler cfg env c fs).fs
          (filepathJoin cfg.uploadDir (N ++ ['.', 'j', 'p', 'e', 'g'])),
        [.stat (filepathJoin cfg.uploadDir (N ++ ['.', 'j', 'p', 'e', 'g'])),
          .remove (filepathJoin cfg.uploadDir (N ++ ['.', 'j', 'p', 'e', 'g']))]⟩ := by
    rw [deleteHandler_authorized cfg env ⟨some cfg.apiKey, N ++ ['.', 'j', 'p', 'e', 'g']⟩ _
      rfl hw]
    simp [hne, hrm]
  have hgone := FS.lookup_erase_self (uploadHandler cfg env c fs).fs
    (filepathJoin cfg.uploadDir (N ++ ['.', 'j', 'p', 'e', 'g']))
  have hne2 := (osIsNotExist_osStat env.faults _ _).mpr
    ⟨hsf, FS.hasFileAncestor_erase _ _ _ hanc, hgone⟩
  refine ⟨rfl, ⟨img, by rw [h2]; simp⟩, h3, ?_, ?_, ?_, ?_⟩
  · rw [hd1]
  · rw [hd1]
  · rw [hd1]; exact hgone
  · rw [hd1, deleteHandler_authorized cfg env ⟨some cfg.apiKey, N ++ ['.', 'j', 'p', 'e', 'g']⟩ _
      rfl hw]
    simp [hne2, StatusNotFound]

/-- C7 (counterexample): after the upload of the name "a b" has succeeded, the request
DELETE /a b.jpeg reaches the handler with the wildcard "a%20b.jpeg"; it is answered
404 and the uploaded file stays.  And when the system refuses to remove the file
(EACCES), the DELETE for an uploaded "cover" is answered 500 and the file stays. -/
theorem delete_after_upload_fails :
    (uploadHandler sampleConfig sampleEnv (sampleUpload (some "a b".toList)) sampleFS).resp =
        .json "http://h/a b.jpeg".toList 7 ∧
      (deleteRequestFor "key".toList "a b.jpeg".toList).wildcard = "a%20b.jpeg".toList ∧
      (deleteHandler sampleConfig sampleEnv (deleteRequestFor "key".toList "a b.jpeg".toList)
        (uploadHandler sampleConfig sampleEnv (sampleUpload (some "a b".toList))
          sampleFS).fs).resp = .error 404 "No file found" ∧
      FS.lookup (deleteHandler sampleConfig sampleEnv
        (deleteRequestFor "key".toList "a b.jpeg".toList)
        (uploadHandler sampleConfig sampleEnv (sampleUpload (some "a b".toList))
          sampleFS).fs).fs "uploads/a b.jpeg".toList = some (Node.file 7) ∧
      (uploadHandler sampleConfig readOnlyEnv (sampleUpload (some "cover".toList))
        sampleFS).resp = .json "http://h/cover.jpeg".toList 7 ∧
      (deleteHandler sampleConfig readOnlyEnv (deleteRequestFor "key".toList "cover.jpeg".toList)
        (uploadHandler sampleConfig readOnlyEnv (sampleUpload (some "cover".toList))
          sampleFS).fs).resp = .error 500 "Cannot delete file" ∧
      FS.lookup (deleteHandler sampleConfig readOnlyEnv
        (deleteRequestFor "key".toList "cover.jpeg".toList)
        (uploadHandler sampleConfig readOnlyEnv (sampleUpload (some "cover".toList))
          sampleFS).fs).fs "uploads/cover.jpeg".toList = some (Node.file 7) := by
  decide

/-- C10 (as amended): the delete handler changes nothing but the entry at the path it
resolves; when it answers 200 that entry existed, was a regular file or a directory
with no entry below it, and is gone afterwards; a directory that has an entry below
it is never removed. -/
theorem delete_single_entry (cfg : Config) (env : Env) (c : DeleteRequest) (fs : FS) :
    (∀ q, q ≠ filepathJoin cfg.uploadDir c.wildcard →
        FS.lookup (deleteHandler cfg env c fs).fs q = FS.lookup fs q) ∧
      ((deleteHandler cfg env c fs).resp.status = 200 →
        ∃ n, FS.lookup fs (filepathJoin cfg.uploadDir c.wildcard) = some n ∧
          (n = Node.dir → FS.hasEntryBelow fs (filepathJoin cfg.uploadDir c.wildcard) = false) ∧
          FS.lookup (deleteHandler cfg env c fs).fs (filepathJoin cfg.uploadDir c.wildcard) =
            none) ∧
      (∀ q, FS.lookup fs q = some Node.dir → FS.hasEntryBelow fs q = true →
        FS.lookup (deleteHandler cfg env c fs).fs q = some Node.dir) := by
  refine ⟨fun q hq => deleteHandler_frame cfg env c fs q hq, ?_, ?_⟩
  · intro hst
    unfold deleteHandler at hst ⊢
    split
    · rw [if_pos (by assumption)] at hst
      simp [Response.status, StatusUnauthorized] at hst
    · rw [if_neg (by assumption)] at hst
      simp only at hst ⊢
      split
      · rw [if_pos (by assumption)] at hst
        simp [Response.status, StatusBadRequest] at hst
      · rw [if_neg (by assumption)] at hst
        split
        · rw [if_pos (by assumption)] at hst
          simp [Response.status, StatusNotFound] at hst
        · split
          · rename_i e hrm
            rw [if_neg (by assumption)] at hst
            simp [hrm, Response.status, StatusInternalServerError] at hst
          · rename_i fs1 hrm
            obtain ⟨rfl, n, hl, hdir⟩ := osRemove_ok _ _ _ _ hrm
            exact ⟨n, hl, hdir, FS.lookup_erase_self fs _⟩
  · intro q hq hbelow
    by_cases hqp : q = filepathJoin cfg.uploadDir c.wildcard
    · subst hqp
      unfold deleteHandler
      split
      · exact hq
      · simp only
        split
        · exact hq
        · split
          · exact hq
          · split
            · exact hq
            · rename_i fs1 hrm
              obtain ⟨-, n, hl, hdir⟩ := osRemove_ok _ _ _ _ hrm
              rw [hq] at hl
              cases hl
              rw [hdir rfl] at hbelow
              cases hbelow
    · rw [deleteHandler_frame cfg env c fs q hqp]
      exact hq

/-- C10 (counterexample): with the upload root "./uploads" holding an empty directory
"d", DELETE /d with the correct key answers 200 and the directory is removed. -/
theorem delete_removes_empty_directory :
    FS.lookup [("uploads".toList, Node.dir), ("uploads/d".toList, Node.dir)]
        "uploads/d".toList = some Node.dir ∧
      (deleteHandler ⟨"key".toList, "./uploads".toList⟩ sampleEnv
        ⟨some "key".toList, "d".toList⟩
        [("uploads".toList, Node.dir), ("uploads/d".toList, Node.dir)]).resp =
        .sendString "File deleted successfully" ∧
      FS.lookup (deleteHandler ⟨"key".toList, "./uploads".toList⟩ sampleEnv
        ⟨some "key".toList, "d".toList⟩
        [("uploads".toList, Node.dir), ("uploads/d".toList, Node.dir)]).fs
        "uploads/d".toList = none := by
  decide

/-- C3 (as amended): for a DELETE request with the correct key and a non-empty
wildcard segment the handler makes no containment check: whether the path resolved by
filepath.Join lies inside the upload root or not, it never answers 400, it calls
os.Stat on that path and, unless os.Stat reports not-exist, os.Remove on the same
path, whose success is answered 200 with the filesystem os.Remove left. -/
theorem delete_unconfined (cfg : Config) (env : Env) (c : DeleteRequest) (fs : FS)
    (hk : c.apiKeyHeader.getD [] = cfg.apiKey) (hw : c.wildcard ≠ []) :
    (deleteHandler cfg env c fs).resp.status ≠ 400 ∧
      (osIsNotExist (osStat env.faults fs (filepathJoin cfg.uploadDir c.wildcard)) = true →
        (deleteHandler cfg env c fs).calls =
          [.stat (filepathJoin cfg.uploadDir c.wildcard)]) ∧
      (osIsNotExist (osStat env.faults fs (filepathJoin cfg.uploadDir c.wildcard)) = false →
        (deleteHandler cfg env c fs).calls =
          [.stat (filepathJoin cfg.uploadDir c.wildcard),
            .remove (filepathJoin cfg.uploadDir c.wildcard)]) ∧
      (osIsNotExist (osStat env.faults fs (filepathJoin cfg.uploadDir c.wildcard)) = false →
        ∀ fs1, osRemove env.faults fs (filepathJoin cfg.uploadDir c.wildcard) = .ok fs1 →
          (deleteHandler cfg env c fs).resp = .sendString "File deleted successfully" ∧
            (deleteHandler cfg env c fs).fs = fs1) := by
  rw [deleteHandler_authorized cfg env c fs hk hw]
  refine ⟨?_, ?_, ?_, ?_⟩
  · split
    · simp [Response.status, StatusNotFound]
    · split <;> simp [Response.status, StatusInternalServerError]
  · intro hne
    simp [hne]
  · intro hne
    rw [hne]
    simp only [Bool.false_eq_true, if_false]
    split <;> rfl
  · intro hne fs1 hrm
    simp [hne, hrm]

/-- C3 (counterexample): with the upload root "./uploads" and a file "x" next to it,
DELETE /../x with the correct key resolves to "x", which is not below the root; the
handler stats and removes it and answers 200, not 400. -/
theorem delete_traversal_not_rejected :
    filepathJoin "./uploads".toList "../x".toList = "x".toList ∧
      isBelow (filepathClean "./uploads".toList)
        (filepathJoin "./uploads".toList "../x".toList) = false ∧
      (deleteHandler ⟨"key".toList, "./uploads".toList⟩ sampleEnv
        ⟨some "key".toList, "../x".toList⟩
        [("uploads".toList, Node.dir), ("x".toList, Node.file 5)]).resp =
        .sendString "File deleted successfully" ∧
      (deleteHandler ⟨"key".toList, "./uploads".toList⟩ sampleEnv
        ⟨some "key".toList, "../x".toList⟩
        [("uploads".toList, Node.dir), ("x".toList, Node.file 5)]).calls =
        [.stat "x".toList, .remove "x".toList] ∧
      FS.lookup (deleteHandler ⟨"key".toList, "./uploads".toList⟩ sampleEnv
        ⟨some "key".toList, "../x".toList⟩
        [("uploads".toList, Node.dir), ("x".toList, Node.file 5)]).fs "x".toList = none := by
  decide

/-! ## The resize -/

/-- The rounding of `roundHalfUp`: the result is the integer nearest to `a / b`, halves
rounded up. -/
theorem roundHalfUp_nearest (a b : Nat) (hb : 0 < b) :
    2 * roundHalfUp a b * b ≤ 2 * a + b ∧ 2 * a + b < 2 * (roundHalfUp a b + 1) * b := by
  unfold roundHalfUp
  have h2b : 0 < 2 * b := by omega
  have h1 := Nat.div_mul_le_self (2 * a + b) (2 * b)
  have h2 := Nat.lt_div_mul_add (a := 2 * a + b) h2b
  constructor
  · calc 2 * ((2 * a + b) / (2 * b)) * b = (2 * a + b) / (2 * b) * (2 * b) := by ring
      _ ≤ 2 * a + b := h1
  · calc 2 * a + b < (2 * a + b) / (2 * b) * (2 * b) + 2 * b := h2
      _ = 2 * ((2 * a + b) / (2 * b) + 1) * b := by ring

/-- The only image the upload handler saves is the decoded one resized to width 1280
and height 0. -/
theorem uploadHandler_save_call (cfg : Config) (env : Env) (c : UploadRequest) (fs : FS)
    (p : Str) (im : Image) (h : Call.save p im ∈ (uploadHandler cfg env c fs).calls) :
    ∃ f img, c.formFile = some f ∧ f.decoded = some img ∧ im = imagingResize img 1280 0 ∧
      p = filepathJoin cfg.uploadDir
        ((if c.formValue = [] then env.uuid else c.formValue) ++ jpegExt) := by
  by_cases hk : c.get = cfg.apiKey
  · cases hf : c.formFile with
    | none => simp [uploadHandler, hk, hf] at h
    | some f =>
      by_cases hs : f.size > maxFileSize
      · simp [uploadHandler, hk, hf, hs] at h
      · cases ho : f.openErr with
        | true => simp [uploadHandler, hk, hf, hs, ho] at h
        | false =>
          cases hd : f.decoded with
          | none => simp [uploadHandler, hk, hf, hs, ho, hd] at h
          | some img =>
            refine ⟨f, img, rfl, hd, ?_⟩
            rw [uploadHandler_decoded cfg env c fs f img hk hf (Nat.not_lt.mp hs) ho hd] at h
            simp only at h
            split at h
            · simp at h
              exact ⟨h.2, h.1⟩
            · split at h <;> (simp at h; exact ⟨h.2, h.1⟩)
  · simp [uploadHandler, hk] at h

/-- C8: for a decoded source image of width w > 0 and height h > 0, the image the
upload handler saves has width 1280 (so at most 1280) and a height H of at least 1;
H is 1280 * h / w rounded to the nearest integer (2Hw ≤ 2 * 1280 * h + w <
2(H + 1)w) unless that rounds to 0 (2 * 1280 * h < w), in which case H is 1. -/
theorem upload_resize_dimensions (cfg : Config) (env : Env) (c : UploadRequest) (fs : FS)
    (f : FormFile) (img im : Image) (p : Str) (hf : c.formFile = some f)
    (hd : f.decoded = some img) (hw : 0 < img.w) (hh : 0 < img.h)
    (hsave : Call.save p im ∈ (uploadHandler cfg env c fs).calls) :
    im.w ≤ 1280 ∧ 1 ≤ im.h ∧
      (img.w ≤ 2 * (1280 * img.h) →
        2 * im.h * img.w ≤ 2 * (1280 * img.h) + img.w ∧
          2 * (1280 * img.h) + img.w < 2 * (im.h + 1) * img.w) ∧
      (2 * (1280 * img.h) < img.w → im.h = 1) := by
  obtain ⟨f', img', hf', hd', him, -⟩ := uploadHandler_save_call cfg env c fs p im hsave
  rw [hf] at hf'
  cases hf'
  rw [hd] at hd'
  cases hd'
  have hw' : ¬ img.w = 0 := by omega
  have hh' : ¬ img.h = 0 := by omega
  have hres : imagingResize img 1280 0 = ⟨1280, max 1 (roundHalfUp (1280 * img.h) img.w)⟩ := by
    simp [imagingResize, hw', hh']
  rw [hres] at him
  subst him
  obtain ⟨h1, h2⟩ := roundHalfUp_nearest (1280 * img.h) img.w hw
  refine ⟨le_refl _, le_max_left _ _, ?_, ?_⟩
  · intro hge
    have hk : 1 ≤ roundHalfUp (1280 * img.h) img.w := by
      unfold roundHalfUp
      exact (Nat.one_le_div_iff (by omega)).mpr (by omega)
    have hmax : max 1 (roundHalfUp (1280 * img.h) img.w) = roundHalfUp (1280 * img.h) img.w :=
      max_eq_right hk
    simp only [hmax]
    exact ⟨h1, h2⟩
  · intro hlt
    have hk : roundHalfUp (1280 * img.h) img.w = 0 := by
      unfold roundHalfUp
      exact Nat.div_eq_of_lt (by omega)
    simp [hk]

/-! ## Where the upload handler writes -/

theorem imagingSave_frame (env : Env) (fs : FS) (img : Image) (p q : Str) (hq : q ≠ p) :
    FS.lookup (imagingSave env fs img p).1 q = FS.lookup fs q := by
  unfold imagingSave
  split
  · rfl
  · split
    · exact FS.lookup_write_ne fs p q _ hq
    · exact FS.lookup_write_ne fs p q _ hq

/-- The upload handler changes the filesystem at most at the path it saves to. -/
theorem uploadHandler_frame (cfg : Config) (env : Env) (c : UploadRequest) (fs : FS) (q : Str)
    (hq : q ≠ filepathJoin cfg.uploadDir
      ((if c.formValue = [] then env.uuid else c.formValue) ++ jpegExt)) :
    FS.lookup (uploadHandler cfg env c fs).fs q = FS.lookup fs q := by
  by_cases hk : c.get = cfg.apiKey
  · cases hf : c.formFile with
    | none => simp [uploadHandler, hk, hf]
    | some f =>
      by_cases hs : f.size > maxFileSize
      · simp [uploadHandler, hk, hf, hs]
      · cases ho : f.openErr with
        | true => simp [uploadHandler, hk, hf, hs, ho]
        | false =>
          cases hd : f.decoded with
          | none => simp [uploadHandler, hk, hf, hs, ho, hd]
          | some img =>
            rw [uploadHandler_decoded cfg env c fs f img hk hf (Nat.not_lt.mp hs) ho hd]
            have hfr := imagingSave_frame env fs (imagingResize img 1280 0) _ q hq
            simp only
            split
            · rename_i fs1 heq
              rw [heq] at hfr
              exact hfr
            · rename_i fs1 heq
              rw [heq] at hfr
              split <;> exact hfr
  · simp [uploadHandler, hk]

/-- C2 (as amended): the upload handler saves to filepath.Join(uploadDir, F + ".jpeg")
without checking the result, F being the name field or, when that is empty or absent,
the UUID; when the upload directory is not the empty string and F + ".jpeg" has no
".." path element, that path lies below the cleaned upload root, and the handler
changes no filesystem entry that is not below the root. -/
theorem upload_path_below_root (cfg : Config) (env : Env) (c : UploadRequest) (fs : FS)
    (hroot : cfg.uploadDir ≠ [])
    (hname : hasDotDotElem true
      ((if c.name.getD [] = [] then env.uuid else c.name.getD []) ++
        ['.', 'j', 'p', 'e', 'g']) = false) :
    (∀ p im, Call.save p im ∈ (uploadHandler cfg env c fs).calls →
        p = filepathJoin cfg.uploadDir
            ((if c.name.getD [] = [] then env.uuid else c.name.getD []) ++
              ['.', 'j', 'p', 'e', 'g']) ∧
          isBelow (filepathClean cfg.uploadDir) p = true) ∧
      (∀ q, FS.lookup (uploadHandler cfg env c fs).fs q ≠ FS.lookup fs q →
        isBelow (filepathClean cfg.uploadDir) q = true) := by
  have hbelow := filepathJoin_noDotDot_below cfg.uploadDir _ hroot hname
  constructor
  · intro p im hsave
    obtain ⟨f, img, -, -, -, hp⟩ := uploadHandler_save_call cfg env c fs p im hsave
    subst hp
    exact ⟨rfl, hbelow⟩
  · intro q hq
    by_cases hqp : q = filepathJoin cfg.uploadDir
        ((if c.formValue = [] then env.uuid else c.formValue) ++ jpegExt)
    · subst hqp
      exact hbelow
    · exact absurd (uploadHandler_frame cfg env c fs q hqp) hq

/-- C2 (counterexample): with the upload root "./uploads" and the name "../evil", a
valid upload is answered 200 and the file is saved at "evil.jpeg", which is not below
the cleaned root "uploads". -/
theorem upload_traversal_escapes_root :
    filepathClean "./uploads".toList = "uploads".toList ∧
      (uploadHandler sampleConfig sampleEnv (sampleUpload (some "../evil".toList))
        sampleFS).resp = .json "http://h/../evil.jpeg".toList 7 ∧
      (uploadHandler sampleConfig sampleEnv (sampleUpload (some "../evil".toList))
        sampleFS).calls =
        [.fileOpen, .imageDecode, .save "evil.jpeg".toList ⟨1280, 640⟩,
          .stat "evil.jpeg".toList] ∧
      FS.lookup (uploadHandler sampleConfig sampleEnv (sampleUpload (some "../evil".toList))
        sampleFS).fs "evil.jpeg".toList = some (Node.file 7) ∧
      isBelow (filepathClean sampleConfig.uploadDir) "evil.jpeg".toList = false := by
  decide

/-! ## The theorems at concrete requests -/

/-- Instance of C1: a wrong key on an otherwise valid upload. -/
theorem upload_wrong_key_unauthorized_witness :
    (⟨some "bad".toList, some sampleImageFile, some "cover".toList, []⟩ :
        UploadRequest).apiKeyHeader.getD [] ≠ sampleConfig.apiKey ∧
      (uploadHandler sampleConfig sampleEnv
        ⟨some "bad".toList, some sampleImageFile, some "cover".toList, []⟩ sampleFS).resp =
        .error 401 "Unauthorized to upload file" ∧
      (uploadHandler sampleConfig sampleEnv
        ⟨some "bad".toList, some sampleImageFile, some "cover".toList, []⟩ sampleFS).fs =
        sampleFS ∧
      (uploadHandler sampleConfig sampleEnv
        ⟨some "bad".toList, some sampleImageFile, some "cover".toList, []⟩ sampleFS).calls =
        [] :=
  ⟨by decide, upload_wrong_key_unauthorized sampleConfig sampleEnv
    ⟨some "bad".toList, some sampleImageFile, some "cover".toList, []⟩ sampleFS (by decide)⟩

/-- Instance of C6: ten bytes of plain text uploaded under the name "cover". -/
theorem upload_undecodable_unsupported_witness :
    (10 : Nat) ≤ 20 * 1024 * 1024 ∧
      (uploadHandler sampleConfig sampleEnv
        ⟨some "key".toList, some ⟨10, false, none⟩, some "cover".toList, []⟩ sampleFS).resp =
        .error 415 "Invalid file format" ∧
      (uploadHandler sampleConfig sampleEnv
        ⟨some "key".toList, some ⟨10, false, none⟩, some "cover".toList, []⟩ sampleFS).fs =
        sampleFS ∧
      (uploadHandler sampleConfig sampleEnv
        ⟨some "key".toList, some ⟨10, false, none⟩, some "cover".toList, []⟩ sampleFS).calls =
        [.fileOpen, .imageDecode] :=
  ⟨by decide, upload_undecodable_unsupported sampleConfig sampleEnv
    ⟨some "key".toList, some ⟨10, false, none⟩, some "cover".toList, []⟩ sampleFS
    ⟨10, false, none⟩ rfl rfl (by decide) rfl rfl⟩

/-- Instance of C9: the 2000 x 1000 image uploaded under the name "cover". -/
theorem upload_success_location_witness :
    (uploadHandler sampleConfig sampleEnv (sampleUpload (some "cover".toList)) sampleFS).resp =
        .json "http://h/cover.jpeg".toList 7 ∧
      FS.lookup
        (uploadHandler sampleConfig sampleEnv (sampleUpload (some "cover".toList)) sampleFS).fs
        (filepathJoin sampleConfig.uploadDir ("cover".toList ++ ['.', 'j', 'p', 'e', 'g'])) =
        some (.file 7) :=
  ⟨by decide,
    (upload_success_location sampleConfig sampleEnv (sampleUpload (some "cover".toList))
      sampleFS "http://h/cover.jpeg".toList 7 (by decide)).2.2⟩

/-- Instance of C7 as amended: upload "cover", delete "/cover.jpeg" twice. -/
theorem upload_then_delete_twice_witness :
    "cover".toList ≠ [] ∧
      (∀ ch ∈ "cover".toList, isUnreserved ch = true) ∧
      (deleteHandler sampleConfig sampleEnv
        (deleteRequestFor sampleConfig.apiKey ("cover".toList ++ ['.', 'j', 'p', 'e', 'g']))
        (uploadHandler sampleConfig sampleEnv (sampleUpload (some "cover".toList))
          sampleFS).fs).resp = .sendString "File deleted successfully" ∧
      (deleteHandler sampleConfig sampleEnv
        (deleteRequestFor sampleConfig.apiKey ("cover".toList ++ ['.', 'j', 'p', 'e', 'g']))
        (deleteHandler sampleConfig sampleEnv
          (deleteRequestFor sampleConfig.apiKey ("cover".toList ++ ['.', 'j', 'p', 'e', 'g']))
          (uploadHandler sampleConfig sampleEnv (sampleUpload (some "cover".toList))
            sampleFS).fs).fs).resp = .error 404 "No file found" :=
  ⟨by decide, by decide,
    (upload_then_delete_twice sampleConfig sampleEnv (sampleUpload (some "cover".toList))
      sampleFS "cover".toList "http://h/cover.jpeg".toList 7 rfl (by decide) (by decide) rfl
      (by decide)).2.2.2.1,
    (upload_then_delete_twice sampleConfig sampleEnv (sampleUpload (some "cover".toList))
      sampleFS "cover".toList "http://h/cover.jpeg".toList 7 rfl (by decide) (by decide) rfl
      (by decide)).2.2.2.2.2.2⟩

/-- Instance of C3 as amended: DELETE /../x with the correct key. -/
theorem delete_unconfined_witness :
    "../x".toList ≠ [] ∧
      (deleteHandler sampleConfig sampleEnv ⟨some "key".toList, "../x".toList⟩
        [("uploads".toList, Node.dir), ("x".toList, Node.file 5)]).resp.status ≠ 400 ∧
      (deleteHandler sampleConfig sampleEnv ⟨some "key".toList, "../x".toList⟩
        [("uploads".toList, Node.dir), ("x".toList, Node.file 5)]).calls =
        [.stat (filepathJoin sampleConfig.uploadDir "../x".toList),
          .remove (filepathJoin sampleConfig.uploadDir "../x".toList)] :=
  ⟨by decide,
    (delete_unconfined sampleConfig sampleEnv ⟨some "key".toList, "../x".toList⟩
      [("uploads".toList, Node.dir), ("x".toList, Node.file 5)] rfl (by decide)).1,
    (delete_unconfined sampleConfig sampleEnv ⟨some "key".toList, "../x".toList⟩
      [("uploads".toList, Node.dir), ("x".toList, Node.file 5)] rfl (by decide)).2.2.1
      (by decide)⟩

/-- Instance of C4 as amended: DELETE /cover.jpeg on an existing regular file is
answered 200 and the file is erased. -/
theorem delete_chain_witness :
    (deleteHandler sampleConfig sampleEnv ⟨some "key".toList, "cover.jpeg".toList⟩
        [("uploads".toList, Node.dir), ("uploads/cover.jpeg".toList, Node.file 7)]).resp =
        .sendString "File deleted successfully" ∧
      (deleteHandler sampleConfig sampleEnv ⟨some "key".toList, "cover.jpeg".toList⟩
        [("uploads".toList, Node.dir), ("uploads/cover.jpeg".toList, Node.file 7)]).fs =
        FS.erase [("uploads".toList, Node.dir), ("uploads/cover.jpeg".toList, Node.file 7)]
          (filepathJoin sampleConfig.uploadDir "cover.jpeg".toList) ∧
      FS.lookup (deleteHandler sampleConfig sampleEnv
        ⟨some "key".toList, "cover.jpeg".toList⟩
        [("uploads".toList, Node.dir), ("uploads/cover.jpeg".toList, Node.file 7)]).fs
        (filepathJoin sampleConfig.uploadDir "cover.jpeg".toList) = none :=
  (delete_chain sampleConfig sampleEnv ⟨some "key".toList, "cover.jpeg".toList⟩
    [("uploads".toList, Node.dir), ("uploads/cover.jpeg".toList, Node.file 7)]).2.2.2.2.2.1
    rfl (by decide) (by decide) rfl (by decide) (Or.inl ⟨7, by decide⟩)

/-- Instance of C8: the 2000 x 1000 image is saved as 1280 x 640. -/
theorem upload_resize_dimensions_witness :
    Call.save "uploads/cover.jpeg".toList ⟨1280, 640⟩ ∈
        (uploadHandler sampleConfig sampleEnv (sampleUpload (some "cover".toList))
          sampleFS).calls ∧
      (1280 ≤ 1280 ∧ 1 ≤ 640 ∧
        (2000 ≤ 2 * (1280 * 1000) →
          2 * 640 * 2000 ≤ 2 * (1280 * 1000) + 2000 ∧
            2 * (1280 * 1000) + 2000 < 2 * (640 + 1) * 2000) ∧
        (2 * (1280 * 1000) < 2000 → 640 = 1)) :=
  ⟨by decide,
    upload_resize_dimensions sampleConfig sampleEnv (sampleUpload (some "cover".toList))
      sampleFS sampleImageFile ⟨2000, 1000⟩ ⟨1280, 640⟩ "uploads/cover.jpeg".toList rfl rfl
      (by decide) (by decide) (by decide)⟩

/-- Instance of C2 as amended: the name "2024/cover" is saved at
"uploads/2024/cover.jpeg", below the root. -/
theorem upload_path_below_root_witness :
    sampleConfig.uploadDir ≠ [] ∧
      hasDotDotElem true ("2024/cover".toList ++ ['.', 'j', 'p', 'e', 'g']) = false ∧
      Call.save "uploads/2024/cover.jpeg".toList ⟨1280, 640⟩ ∈
        (uploadHandler sampleConfig sampleEnv (sampleUpload (some "2024/cover".toList))
          sampleFS).calls ∧
      isBelow (filepathClean sampleConfig.uploadDir) "uploads/2024/cover.jpeg".toList = true :=
  ⟨by decide, by decide, by decide,
    ((upload_path_below_root sampleConfig sampleEnv (sampleUpload (some "2024/cover".toList))
      sampleFS (by decide) (by decide)).1 "uploads/2024/cover.jpeg".toList ⟨1280, 640⟩
      (by decide)).2⟩

/-- The branches of the delete handler at concrete requests: a missing file is 404, a
directory with an entry below it is 500 and stays, a wrong key is 401 even for an
empty segment, an empty segment is 400, and the root itself, resolved from "..", is
not removed. -/
theorem delete_branches_examples :
    (deleteHandler sampleConfig sampleEnv ⟨some "key".toList, "nope.jpeg".toList⟩
        sampleFS).resp = .error 404 "No file found" ∧
      (deleteHandler sampleConfig sampleEnv ⟨some "key".toList, "d".toList⟩
        [("uploads".toList, Node.dir), ("uploads/d".toList, Node.dir),
          ("uploads/d/a.jpeg".toList, Node.file 3)]).resp = .error 500 "Cannot delete file" ∧
      (deleteHandler sampleConfig sampleEnv ⟨none, []⟩ sampleFS).resp =
        .error 401 "Unauthorized to delete file" ∧
      (deleteHandler sampleConfig sampleEnv ⟨some "key".toList, []⟩ sampleFS).resp =
        .error 400 "No file name found" ∧
      (deleteHandler ⟨"key".toList, ".".toList⟩ sampleEnv ⟨some "key".toList, ".".toList⟩
        [(".".toList, Node.dir)]).resp = .error 500 "Cannot delete file" := by
  decide

end GoCdn
